import Mathlib

/-!
Verification development for the factory conveyor-belt simulation
(`worker.py`, `belt.py`, `strategies.py`, `simulation.py`).

The Python sources are shallowly embedded: each class becomes a structure,
each method a Lean function on that structure.  Python exceptions are made
explicit (`Option` for `Worker.pickup`, an error component threaded through
the driver), and the global `random.random()` refill draw is abstracted to
its three-way outcome `RandDraw`.
-/

namespace Factory

/-- Components `A`, `B` and the finished product `C` from `worker.py` / `belt.py`. -/
inductive Item
  | A
  | B
  | C
deriving DecidableEq

/-- Outcome of the single uniform draw in `ConveyorBelt.step_with_random_item`:
1/3 component `A`, 1/3 component `B`, 1/3 nothing. -/
inductive RandDraw
  | drawA
  | drawB
  | drawNone
deriving DecidableEq

/-- Slot content produced by a refill draw. -/
def RandDraw.toSlot : RandDraw → Option Item
  | .drawA => some Item.A
  | .drawB => some Item.B
  | .drawNone => none

/-- State of `worker.Worker`. -/
structure Worker where
  worker_id : Nat
  hand_left : Option Item
  hand_right : Option Item
  assembling_time_left : Nat
  products_made : Nat
  assembly_time : Nat
deriving DecidableEq

namespace Worker

/-- `Worker.__init__`. -/
def init (worker_id : Nat) (assembly_time : Nat) : Worker :=
  { worker_id := worker_id
    hand_left := none
    hand_right := none
    assembling_time_left := 0
    products_made := 0
    assembly_time := assembly_time }

/-- `Worker.is_empty`. -/
def is_empty (w : Worker) : Bool :=
  w.hand_left = none ∧ w.hand_right = none

/-- `Worker.is_full`. -/
def is_full (w : Worker) : Bool :=
  w.hand_left ≠ none ∧ w.hand_right ≠ none

/-- `Worker.is_assembling` (`assembling_time_left > 0`). -/
def is_assembling (w : Worker) : Bool :=
  0 < w.assembling_time_left

/-- `Worker.needs_component`: `hand_left or hand_right` in Python picks the
left hand when it is non-`None`, else the right hand. -/
def needs_component (w : Worker) (component : Item) : Bool :=
  if w.is_full || w.is_assembling then false
  else if w.hand_left = none ∧ w.hand_right = none then
    component = Item.A ∨ component = Item.B
  else
    let held := match w.hand_left with
      | some x => some x
      | none => w.hand_right
    (held = some Item.A ∧ component = Item.B) ∨
      (held = some Item.B ∧ component = Item.A)

/-- `Worker.needs`: `list({A, B} - held_components)`.  The Python set
difference is rendered as a filter over `[A, B]`. -/
def needs (w : Worker) : List Item :=
  if w.is_full || w.is_assembling then []
  else
    [Item.A, Item.B].filter fun c =>
      !(w.hand_left = some c ∨ w.hand_right = some c : Bool)

/-- `Worker.is_holding`. -/
def is_holding (w : Worker) (component : Item) : Bool :=
  w.hand_left = some component ∨ w.hand_right = some component

/-- `Worker.is_holding_one_component`. -/
def is_holding_one_component (w : Worker) : Bool :=
  (w.hand_left ≠ none) ≠ (w.hand_right ≠ none)

/-- `Worker.can_assemble`: `{hand_left, hand_right} == {A, B}` and not
already assembling. -/
def can_assemble (w : Worker) : Bool :=
  ((w.hand_left = some Item.A ∧ w.hand_right = some Item.B) ∨
      (w.hand_left = some Item.B ∧ w.hand_right = some Item.A)) ∧
    ¬(w.is_assembling = true)

/-- `Worker.start_assembly`. -/
def start_assembly (w : Worker) : Worker :=
  if w.can_assemble then { w with assembling_time_left := w.assembly_time }
  else w

/-- `Worker.step_assembly`. -/
def step_assembly (w : Worker) : Worker :=
  if w.is_assembling then
    let t := w.assembling_time_left - 1
    if t = 0 then
      { w with
          assembling_time_left := 0
          hand_left := some Item.C
          hand_right := none
          products_made := w.products_made + 1 }
    else { w with assembling_time_left := t }
  else w

/-- `Worker.pickup`: `none` models the `"Both hands are full"` exception. -/
def pickup (w : Worker) (item : Item) : Option Worker :=
  if w.hand_left = none then some { w with hand_left := some item }
  else if w.hand_right = none then some { w with hand_right := some item }
  else none

/-- `Worker.receive_item` — same logic as `pickup`. -/
def receive_item (w : Worker) (item : Item) : Option Worker :=
  w.pickup item

/-- `Worker.is_holding_product`. -/
def is_holding_product (w : Worker) : Bool :=
  w.hand_left = some Item.C ∨ w.hand_right = some Item.C

/-- `Worker.place_product`: clears the hand holding `C`, returning `C`. -/
def place_product (w : Worker) : Worker × Option Item :=
  if w.is_holding_product then
    if w.hand_left = some Item.C then ({ w with hand_left := none }, some Item.C)
    else ({ w with hand_right := none }, some Item.C)
  else (w, none)

end Worker

/-- State of `belt.ConveyorBelt`. -/
structure ConveyorBelt where
  slots : List (Option Item)
  missed_a : Nat
  missed_b : Nat
deriving DecidableEq

namespace ConveyorBelt

/-- `ConveyorBelt.__init__`. -/
def init (length : Nat) : ConveyorBelt :=
  { slots := List.replicate length none, missed_a := 0, missed_b := 0 }

/-- `ConveyorBelt.step`: the last slot's item falls off (counted when it is a
component, free for `C`), all slots shift toward the tail, the head becomes
empty.  Python's `slots[-1]` raises `IndexError` when `slots` is empty — a
state `Simulation(0, 0, ...)` does build, crashing on its first tick — while
this total rendering of `getLast?` returns no item and conses a head slot
there; theorems about belt ticks therefore carry a `slots ≠ []` hypothesis
rather than relying on this fictional case. -/
def step (b : ConveyorBelt) : ConveyorBelt × Option Item :=
  let last_item : Option Item :=
    match b.slots.getLast? with
    | some s => s
    | none => none
  let mA := if last_item = some Item.A then b.missed_a + 1 else b.missed_a
  let mB := if last_item = some Item.B then b.missed_b + 1 else b.missed_b
  ({ slots := none :: b.slots.dropLast, missed_a := mA, missed_b := mB },
    if last_item = some Item.C then none else last_item)

/-- `ConveyorBelt.step_with_random_item`: `step()` then the random draw fills
the head slot. -/
def step_with_random_item (b : ConveyorBelt) (d : RandDraw) :
    ConveyorBelt × Option Item :=
  let (b', last_item) := b.step
  ({ b' with slots := b'.slots.set 0 d.toSlot }, last_item)

/-- `ConveyorBelt.push_item`. -/
def push_item (b : ConveyorBelt) (item : Item) : ConveyorBelt :=
  { b with slots := b.slots.set 0 (some item) }

/-- `ConveyorBelt.is_empty`. -/
def is_empty (b : ConveyorBelt) : Bool :=
  b.slots.all fun s => s = none

end ConveyorBelt

/-- Python runtime exceptions surfaced by the embedded code: `TypeError`
(iterating a bare `ConveyorBelt` where a list is expected), `IndexError`
(out-of-range slot access), and the `"Both hands are full"` exception from
`Worker.pickup`. -/
inductive PyErr
  | typeError
  | indexError
  | bothHandsFull
deriving DecidableEq

/-- One step of scanning for the first entry of maximal score. -/
def pickBetter {α : Type} (best : Option (Int × α)) (x : Int × α) :
    Option (Int × α) :=
  match best with
  | none => some x
  | some b => if b.1 < x.1 then some x else some b

/-- Python's stable `sort(key=score, reverse=True)` followed by taking the
head element: the first entry of maximal score.  A later entry replaces the
current best only when its score is strictly greater. -/
def selectFirstMax {α : Type} (l : List (Int × α)) : Option (Int × α) :=
  l.foldl pickBetter none

/-- Actions enumerated by `TeamStrategy._get_best_action` in `strategies.py`. -/
inductive TeamAction
  | place_product (belt_idx slot_idx : Nat)
  | stepAssembly
  | startAssembly
  | give_component (component : Item)
  | pickupAction (component : Item) (belt_idx slot_idx : Nat)
deriving DecidableEq

/-- Writes one slot of one belt in a list of belts
(`belts[belt_idx].slots[slot_idx] = v`); indices produced by the strategies
always come from enumeration and are in range. -/
def updateSlot (belts : List ConveyorBelt) (belt_idx slot_idx : Nat)
    (v : Option Item) : List ConveyorBelt :=
  match belts.get? belt_idx with
  | some b => belts.set belt_idx { b with slots := b.slots.set slot_idx v }
  | none => belts

/-- Reads one slot of one belt in a list of belts. -/
def getSlot (belts : List ConveyorBelt) (belt_idx slot_idx : Nat) :
    Option (Option Item) :=
  (belts.get? belt_idx).bind fun b => b.slots.get? slot_idx

namespace IndividualStrategy

/-- Inner slot loop of the priority 1 scan of `IndividualStrategy.act`:
index of the first empty slot, counting from `j`. -/
def firstEmptySlots : List (Option Item) → Nat → Option Nat
  | [], _ => none
  | s :: rest, j => if s = none then some j else firstEmptySlots rest (j + 1)

/-- Priority 1 scan of `IndividualStrategy.act`: the first empty slot found by
the nested loops over the belt list, belt-major and slot-minor. -/
def firstEmpty : List ConveyorBelt → Nat → Option (Nat × Nat)
  | [], _ => none
  | b :: rest, i =>
    match firstEmptySlots b.slots 0 with
    | some j => some (i, j)
    | none => firstEmpty rest (i + 1)

/-- Inner loops of priority 4: scan in station-slot of every belt for a given
component; `slots[station_index]` raises `IndexError` when out of range. -/
def scanBeltsFor (component : Item) (station_index : Nat) :
    List ConveyorBelt → Nat → Except PyErr (Option Nat)
  | [], _ => .ok none
  | b :: rest, i =>
    match b.slots.get? station_index with
    | none => .error .indexError
    | some s =>
      if s = some component then .ok (some i)
      else scanBeltsFor component station_index rest (i + 1)

/-- Outer loop of priority 4: try each needed component in order. -/
def pickupScan (station_index : Nat) (belts : List ConveyorBelt) :
    List Item → Except PyErr (Option (Item × Nat))
  | [] => .ok none
  | c :: cs =>
    match scanBeltsFor c station_index belts 0 with
    | .error e => .error e
    | .ok (some i) => .ok (some (c, i))
    | .ok none => pickupScan station_index belts cs

/-- `IndividualStrategy.act` as exercised by the tests, with the belts
argument an actual list.  Returns the updated worker and belts (the partner
argument is only read for logging in the source and never mutated). -/
def act (worker _partner : Worker) (belts : List ConveyorBelt)
    (station_index : Nat) : Except PyErr (Worker × List ConveyorBelt) :=
  let placed : Option (Worker × List ConveyorBelt) :=
    if worker.is_holding_product then
      (firstEmpty belts 0).map fun p =>
        let (w', product) := worker.place_product
        (w', updateSlot belts p.1 p.2 product)
    else none
  match placed with
  | some r => .ok r
  | none =>
    if worker.is_assembling then .ok (worker.step_assembly, belts)
    else if worker.can_assemble then .ok (worker.start_assembly, belts)
    else if !worker.is_full then
      match pickupScan station_index belts worker.needs with
      | .error e => .error e
      | .ok none => .ok (worker, belts)
      | .ok (some (c, i)) =>
        match worker.pickup c with
        | some w' => .ok (w', updateSlot belts i station_index none)
        | none => .error .bothHandsFull
    else .ok (worker, belts)

end IndividualStrategy

namespace TeamStrategy

/-- Action-1 candidates of `_get_best_action`: one `(100, place_product)` per
empty slot of every belt. -/
def placeCandidates : List ConveyorBelt → Nat → List (Int × TeamAction)
  | [], _ => []
  | b :: rest, i =>
    (placeSlots b.slots i 0) ++ placeCandidates rest (i + 1)
where
  /-- Inner slot loop for one belt. -/
  placeSlots : List (Option Item) → Nat → Nat → List (Int × TeamAction)
    | [], _, _ => []
    | s :: rest, i, j =>
      (if s = none then [((100 : Int), TeamAction.place_product i j)] else [])
        ++ placeSlots rest i (j + 1)

/-- Action-4 candidate: give a surplus component to the partner. -/
def giveCandidate (worker partner : Worker) : List (Int × TeamAction) :=
  if !partner.is_full ∧ worker.hand_left ≠ none ∧
      worker.hand_left = worker.hand_right then
    match worker.hand_right with
    | some component_to_give =>
      if partner.needs_component component_to_give then
        [((70 : Int), TeamAction.give_component component_to_give)]
      else []
    | none => []
  else []

/-- Action-5 candidates: pick up a component from any belt slot, scored
`60 - 5 * distance` plus `5` when the worker itself needs it; only added when
the worker or the partner needs the component. -/
def pickupCandidates (worker partner : Worker) (station_index : Nat) :
    List ConveyorBelt → Nat → List (Int × TeamAction)
  | [], _ => []
  | b :: rest, bi =>
    pickupSlots worker partner station_index bi b.slots 0
      ++ pickupCandidates worker partner station_index rest (bi + 1)
where
  /-- Inner slot loop for one belt. -/
  pickupSlots (worker partner : Worker) (station_index bi : Nat) :
      List (Option Item) → Nat → List (Int × TeamAction)
    | [], _ => []
    | s :: rest, si =>
      (match s with
       | some component =>
         if component = Item.A ∨ component = Item.B then
           let distance : Int :=
             ((station_index : Int) - (si : Int)).natAbs
           let base_score : Int := 60 - distance * 5
           if worker.needs_component component then
             [(base_score + 5, TeamAction.pickupAction component bi si)]
           else if partner.needs_component component then
             [(base_score, TeamAction.pickupAction component bi si)]
           else []
         else []
       | none => [])
        ++ pickupSlots worker partner station_index bi rest (si + 1)

/-- The full `possible_actions` list built by `_get_best_action`, in source
order. -/
def possible_actions (worker partner : Worker) (belts : List ConveyorBelt)
    (station_index : Nat) : List (Int × TeamAction) :=
  (if worker.is_holding_product then placeCandidates belts 0 else [])
    ++ (if worker.is_assembling then [((90 : Int), TeamAction.stepAssembly)] else [])
    ++ (if worker.can_assemble then [((80 : Int), TeamAction.startAssembly)] else [])
    ++ giveCandidate worker partner
    ++ (if !worker.is_full then pickupCandidates worker partner station_index belts 0 else [])

/-- The stable descending sort followed by taking the head: the first
candidate of maximal score wins (a later candidate replaces the current best
only with a strictly greater score). -/
def selectBest (l : List (Int × TeamAction)) : Option (Int × TeamAction) :=
  Factory.selectFirstMax l

/-- `TeamStrategy._get_best_action`. -/
def get_best_action (worker partner : Worker) (belts : List ConveyorBelt)
    (station_index : Nat) : Option TeamAction :=
  (selectBest (possible_actions worker partner belts station_index)).map
    fun p => p.2

/-- The score each kind of candidate carries in `_get_best_action`, read off
the source: place 100, continue assembly 90, start assembly 80, give 70,
pick up `60 - 5 * distance` plus 5 when the worker itself needs the
component. -/
def teamScoreSpec (worker : Worker) (station_index : Nat)
    (sa : Int × TeamAction) : Prop :=
  match sa.2 with
  | TeamAction.place_product _ _ => sa.1 = 100
  | TeamAction.stepAssembly => sa.1 = 90
  | TeamAction.startAssembly => sa.1 = 80
  | TeamAction.give_component _ => sa.1 = 70
  | TeamAction.pickupAction c _ slot_idx =>
    sa.1 = 60 - (((station_index : Int) - (slot_idx : Int)).natAbs : Int) * 5 +
      (if worker.needs_component c then 5 else 0)

/-- `TeamStrategy.act` with the belts argument an actual list: choose the
best action and execute it, returning the updated worker, partner and belts. -/
def act (worker partner : Worker) (belts : List ConveyorBelt)
    (station_index : Nat) :
    Except PyErr (Worker × Worker × List ConveyorBelt) :=
  match get_best_action worker partner belts station_index with
  | none => .ok (worker, partner, belts)
  | some (TeamAction.place_product bi si) =>
    let (w', product) := worker.place_product
    .ok (w', partner, updateSlot belts bi si product)
  | some TeamAction.stepAssembly => .ok (worker.step_assembly, partner, belts)
  | some TeamAction.startAssembly => .ok (worker.start_assembly, partner, belts)
  | some (TeamAction.give_component c) =>
    match partner.pickup c with
    | some p' => .ok ({ worker with hand_right := none }, p', belts)
    | none => .error .bothHandsFull
  | some (TeamAction.pickupAction c bi si) =>
    match worker.pickup c with
    | some w' => .ok (w', partner, updateSlot belts bi si none)
    | none => .error .bothHandsFull

end TeamStrategy

namespace IndividualStrategy

/-- `IndividualStrategy.act` as invoked by `Simulation.run_step`, which passes
the single `self.belt` object where the strategy expects a list of belts.
Any branch that reaches `enumerate(belts)` raises a `TypeError`; branches
that never touch the belts argument run normally.  The returned state is the
state at normal return or at the raise. -/
def actOnDriverBelt (worker _partner : Worker) (belt : ConveyorBelt) :
    (Worker × ConveyorBelt) × Option PyErr :=
  if worker.is_holding_product then ((worker, belt), some .typeError)
  else if worker.is_assembling then ((worker.step_assembly, belt), none)
  else if worker.can_assemble then ((worker.start_assembly, belt), none)
  else if !worker.is_full then
    if worker.needs.isEmpty then ((worker, belt), none)
    else ((worker, belt), some .typeError)
  else ((worker, belt), none)

end IndividualStrategy

namespace TeamStrategy

/-- `TeamStrategy.act` as invoked by `Simulation.run_step` with the single
`self.belt` object: building `possible_actions` raises a `TypeError` at the
place scan (when holding a product) or at the pickup scan (when the hands are
not full); otherwise only the assemble/give candidates exist and the chosen
one is executed.  The returned state is the state at normal return or at the
raise. -/
def actOnDriverBelt (worker partner : Worker) (belt : ConveyorBelt) :
    (Worker × Worker × ConveyorBelt) × Option PyErr :=
  if worker.is_holding_product then ((worker, partner, belt), some .typeError)
  else
    let possible : List (Int × TeamAction) :=
      (if worker.is_assembling then [((90 : Int), TeamAction.stepAssembly)] else [])
        ++ (if worker.can_assemble then [((80 : Int), TeamAction.startAssembly)] else [])
        ++ giveCandidate worker partner
    if !worker.is_full then ((worker, partner, belt), some .typeError)
    else
      match selectBest possible with
      | none => ((worker, partner, belt), none)
      | some (_, TeamAction.stepAssembly) =>
        ((worker.step_assembly, partner, belt), none)
      | some (_, TeamAction.startAssembly) =>
        ((worker.start_assembly, partner, belt), none)
      | some (_, TeamAction.give_component c) =>
        (match partner.pickup c with
         | some p' => (({ worker with hand_right := none }, p', belt), none)
         | none =>
           (({ worker with hand_right := none }, partner, belt),
             some .bothHandsFull))
      | some _ => ((worker, partner, belt), none)

end TeamStrategy

/-- State of `simulation.Simulation`. -/
structure Simulation where
  num_worker_pairs : Nat
  belt_length : Nat
  strategy_name : String
  assembly_time : Nat
  belt : ConveyorBelt
  workers : List Worker
deriving DecidableEq

namespace Simulation

/-- `Simulation.__init__`: the worker-pair count is checked against the belt
length, then the strategy name is resolved; `ValueError` is modelled as
`Except.error`. -/
def init (num_worker_pairs belt_length : Nat) (strategy_name : String)
    (assembly_time : Nat) : Except String Simulation :=
  if num_worker_pairs > belt_length then
    .error "Number of workers cannot exceed the belt length."
  else if strategy_name = "individual" ∨ strategy_name = "team" then
    .ok
      { num_worker_pairs := num_worker_pairs
        belt_length := belt_length
        strategy_name := strategy_name
        assembly_time := assembly_time
        belt := ConveyorBelt.init belt_length
        workers :=
          (List.range (num_worker_pairs * 2)).map fun i =>
            Worker.init i assembly_time }
  else .error "Unknown strategy"

/-- One iteration of the `individual` worker loop of `run_step`: worker `i`
acts (an exception recorded earlier stops the remaining iterations, leaving
the state as it stood at the raise). -/
def indivLoopBody (acc : List Worker × ConveyorBelt × Option PyErr)
    (i : Nat) : List Worker × ConveyorBelt × Option PyErr :=
  match acc with
  | (ws, belt, some e) => (ws, belt, some e)
  | (ws, belt, none) =>
    let partner_idx := if i % 2 = 0 then i + 1 else i - 1
    match ws.get? i, ws.get? partner_idx with
    | some w, some partner =>
      match IndividualStrategy.actOnDriverBelt w partner belt with
      | ((w', belt'), e) => (ws.set i w', belt', e)
    | _, _ => (ws, belt, some .indexError)

/-- The worker loop of `run_step` for the `individual` strategy: each worker
acts in index order. -/
def stratLoopIndividual (total : Nat) (ws : List Worker)
    (belt : ConveyorBelt) : List Worker × ConveyorBelt × Option PyErr :=
  (List.range total).foldl indivLoopBody (ws, belt, none)

/-- One iteration of the `team` worker loop of `run_step`: both workers of
pair `i` act in turn, the second call seeing the mutations of the first. -/
def teamLoopBody (acc : List Worker × ConveyorBelt × Option PyErr)
    (i : Nat) : List Worker × ConveyorBelt × Option PyErr :=
  match acc with
  | (ws, belt, some e) => (ws, belt, some e)
  | (ws, belt, none) =>
    match ws.get? (2 * i), ws.get? (2 * i + 1) with
    | some w1, some w2 =>
      match TeamStrategy.actOnDriverBelt w1 w2 belt with
      | ((w1', w2', belt'), some e) =>
        ((ws.set (2 * i) w1').set (2 * i + 1) w2', belt', some e)
      | ((w1', w2', belt'), none) =>
        match TeamStrategy.actOnDriverBelt w2' w1' belt' with
        | ((w2'', w1'', belt''), e) =>
          ((ws.set (2 * i) w1'').set (2 * i + 1) w2'', belt'', e)
    | _, _ => (ws, belt, some .indexError)

/-- The worker loop of `run_step` for the `team` strategy. -/
def stratLoopTeam (pairs : Nat) (ws : List Worker) (belt : ConveyorBelt) :
    List Worker × ConveyorBelt × Option PyErr :=
  (List.range pairs).foldl teamLoopBody (ws, belt, none)

/-- `Simulation.run_step`, inlined from the source: the belt moves forward
with a random refill, then assembling workers advance their timers, then the
strategy loop runs.  The second component reports an uncaught exception; the
first is the simulation state at return or at the raise. -/
def run_step (sim : Simulation) (d : RandDraw) : Simulation × Option PyErr :=
  let belt1 := (sim.belt.step_with_random_item d).1
  let ws1 := sim.workers.map fun w =>
    if w.is_assembling then w.step_assembly else w
  if sim.strategy_name = "individual" then
    let (ws2, belt2, e) :=
      stratLoopIndividual (sim.num_worker_pairs * 2) ws1 belt1
    ({ sim with belt := belt2, workers := ws2 }, e)
  else if sim.strategy_name = "team" then
    let (ws2, belt2, e) := stratLoopTeam sim.num_worker_pairs ws1 belt1
    ({ sim with belt := belt2, workers := ws2 }, e)
  else ({ sim with belt := belt1, workers := ws1 }, none)

/-- Phase 1 of `run_step` as the source orders it: belt shift plus refill. -/
def beltPhase (sim : Simulation) (d : RandDraw) : Simulation :=
  { sim with belt := (sim.belt.step_with_random_item d).1 }

/-- Phase 2 of `run_step` as the source orders it: assembling workers advance
their timers. -/
def timerPhase (sim : Simulation) : Simulation :=
  { sim with
      workers := sim.workers.map fun w =>
        if w.is_assembling then w.step_assembly else w }

/-- Phase 3 of `run_step` as the source orders it: the strategy loop. -/
def strategyPhase (sim : Simulation) : Simulation × Option PyErr :=
  if sim.strategy_name = "individual" then
    let (ws2, belt2, e) :=
      stratLoopIndividual (sim.num_worker_pairs * 2) sim.workers sim.belt
    ({ sim with belt := belt2, workers := ws2 }, e)
  else if sim.strategy_name = "team" then
    let (ws2, belt2, e) :=
      stratLoopTeam sim.num_worker_pairs sim.workers sim.belt
    ({ sim with belt := belt2, workers := ws2 }, e)
  else (sim, none)

/-- The per-tick ordering the specification asserts: timers advance, then the
strategies act, then the belt shifts and refills (skipped when the strategy
loop raised). -/
def specOrderStep (sim : Simulation) (d : RandDraw) :
    Simulation × Option PyErr :=
  let s1 := timerPhase sim
  match strategyPhase s1 with
  | (s2, some e) => (s2, some e)
  | (s2, none) => (beltPhase s2 d, none)

/-- `Simulation.run`: iterate `run_step` for the given number of steps,
reading one refill draw per tick from the stream at the cursor (the global
`random` state); an uncaught exception aborts the remaining steps. -/
def runSim (sim : Simulation) (steps : Nat) (stream : Nat → RandDraw)
    (cursor : Nat) : Simulation × Nat × Option PyErr :=
  match steps with
  | 0 => (sim, cursor, none)
  | n + 1 =>
    match run_step sim (stream cursor) with
    | (sim', some e) => (sim', cursor + 1, some e)
    | (sim', none) => runSim sim' n stream (cursor + 1)

end Simulation

/-- The aggregate output record printed by `_print_final_results`. -/
structure Results where
  products_created_C : Nat
  missed_a : Nat
  missed_b : Nat
  held_a : Nat
  held_b : Nat
deriving DecidableEq

namespace Simulation

/-- Count of a given component over a worker's two hands. -/
def handCount (w : Worker) (c : Item) : Nat :=
  (if w.hand_left = some c then 1 else 0) +
    (if w.hand_right = some c then 1 else 0)

/-- The aggregates computed by `_print_final_results`. -/
def results (sim : Simulation) : Results :=
  { products_created_C := (sim.workers.map Worker.products_made).sum
    missed_a := sim.belt.missed_a
    missed_b := sim.belt.missed_b
    held_a := (sim.workers.map fun w => handCount w Item.A).sum
    held_b := (sim.workers.map fun w => handCount w Item.B).sum }

/-- A full run's observable output: the aggregates on normal completion,
nothing when the run died with an uncaught exception; paired with the global
random cursor after the run. -/
def runOutput (sim : Simulation) (steps : Nat) (stream : Nat → RandDraw)
    (cursor : Nat) : Option Results × Nat :=
  match runSim sim steps stream cursor with
  | (s, c, none) => (some (results s), c)
  | (_, c, some _) => (none, c)

end Simulation

namespace HiveMindStrategy

/-- Modelled from the spec: `HiveMindStrategy` is referenced by
`tests/test_strategies.py` (`strategy.hive_act(workers, [belt])`) but its
definition is absent from the sources.  Per the spec it "enumerates every
legal action for every non-assembling worker using the same priority scale
as Team".  Workers are paired as in the driver (partner of `2i` is `2i+1`
and conversely, station index `i / 2`); a worker without a list partner is
scored against itself. -/
def candidates (ws : List Worker) (belts : List ConveyorBelt) :
    List (Int × Nat × TeamAction) :=
  go ws 0
where
  /-- Modelled from the spec: enumeration over the roster in index order. -/
  go : List Worker → Nat → List (Int × Nat × TeamAction)
    | [], _ => []
    | w :: rest, i =>
      (if w.is_assembling then []
       else
         let partner_idx := if i % 2 = 0 then i + 1 else i - 1
         let partner := (ws.get? partner_idx).getD w
         (TeamStrategy.possible_actions w partner belts (i / 2)).map
           fun p => (p.1, i, p.2))
        ++ go rest (i + 1)

/-- Modelled from the spec: execution of the single chosen action, reusing
the Team execution steps for the chosen worker. -/
def applyChoice (ws : List Worker) (belts : List ConveyorBelt)
    (i : Nat) (a : TeamAction) : List Worker × List ConveyorBelt :=
  match ws.get? i with
  | none => (ws, belts)
  | some w =>
    match a with
    | TeamAction.place_product bi si =>
      let (w', product) := w.place_product
      (ws.set i w', updateSlot belts bi si product)
    | TeamAction.stepAssembly => (ws.set i w.step_assembly, belts)
    | TeamAction.startAssembly => (ws.set i w.start_assembly, belts)
    | TeamAction.give_component c =>
      let partner_idx := if i % 2 = 0 then i + 1 else i - 1
      (match ws.get? partner_idx with
       | some p =>
         (match p.pickup c with
          | some p' =>
            ((ws.set i { w with hand_right := none }).set partner_idx p',
              belts)
          | none => (ws, belts))
       | none => (ws, belts))
    | TeamAction.pickupAction c bi si =>
      (match w.pickup c with
       | some w' => (ws.set i w', updateSlot belts bi si none)
       | none => (ws, belts))

/-- Modelled from the spec: `hive_act` commits only the single globally
highest-scoring action for the entire tick; every other worker stays idle. -/
def hive_act (ws : List Worker) (belts : List ConveyorBelt) :
    List Worker × List ConveyorBelt :=
  match selectFirstMax (candidates ws belts) with
  | none => (ws, belts)
  | some (_, i, a) => applyChoice ws belts i a

end HiveMindStrategy

namespace Worker

/-- Worker states reachable through the operations of `worker.Worker`
(the `pickup` step exists only when the Python call would not raise). -/
inductive Reach : Worker → Prop
  | init (worker_id assembly_time : Nat) :
      Reach (Worker.init worker_id assembly_time)
  | pickup {w w' : Worker} (item : Item) :
      Reach w → w.pickup item = some w' → Reach w'
  | start {w : Worker} : Reach w → Reach w.start_assembly
  | step {w : Worker} : Reach w → Reach w.step_assembly
  | place {w : Worker} : Reach w → Reach w.place_product.1

/-- Iterated `step_assembly`, front-first. -/
def stepsAssembly (w : Worker) : Nat → Worker
  | 0 => w
  | k + 1 => w.step_assembly.stepsAssembly k

end Worker

/-- The structural invariant of worker states the simulation maintains: an
assembling worker holds exactly one `A` and one `B` (its components are in
its hands until the timer completes). -/
def WfWorker (w : Worker) : Prop :=
  w.is_assembling = true →
    (w.hand_left = some Item.A ∧ w.hand_right = some Item.B) ∨
      (w.hand_left = some Item.B ∧ w.hand_right = some Item.A)

instance (w : Worker) : Decidable (WfWorker w) := by
  unfold WfWorker
  infer_instance

/-- Every worker of a roster satisfies `WfWorker`. -/
def WfWorkers (ws : List Worker) : Prop :=
  ∀ w ∈ ws, WfWorker w

instance (ws : List Worker) : Decidable (WfWorkers ws) := by
  unfold WfWorkers
  infer_instance

/-- Occurrences of component `c` in a worker's two hands. -/
def handsCount (c : Item) (w : Worker) : Nat :=
  (if w.hand_left = some c then 1 else 0) +
    (if w.hand_right = some c then 1 else 0)

/-- A worker's share of component `c`: held in a hand or consumed into one of
its finished products (each product embodies one `A` and one `B`). -/
def workerMass (c : Item) (w : Worker) : Nat :=
  handsCount c w + w.products_made

/-- Occurrences of component `c` on the belt's slots. -/
def beltCount (c : Item) (b : ConveyorBelt) : Nat :=
  b.slots.countP fun s => s = some c

/-- The missed counter belonging to component `c`. -/
def missedOf (c : Item) (b : ConveyorBelt) : Nat :=
  match c with
  | Item.A => b.missed_a
  | Item.B => b.missed_b
  | Item.C => 0

/-- Everywhere component `c` can be accounted for in a simulation state: on
the belt, missed off the belt's tail, in a worker's hand, or consumed into a
finished product. -/
def totalMass (c : Item) (sim : Simulation) : Nat :=
  beltCount c sim.belt + missedOf c sim.belt +
    (sim.workers.map (workerMass c)).sum

namespace Worker

theorem stepsAssembly_add (w : Worker) (a b : Nat) :
    w.stepsAssembly (a + b) = (w.stepsAssembly a).stepsAssembly b := by
  induction a generalizing w with
  | zero => simp [stepsAssembly]
  | succ n ih =>
    have h : n + 1 + b = (n + b) + 1 := by omega
    rw [h]
    simp only [stepsAssembly]
    exact ih w.step_assembly

theorem step_assembly_of_pos (w : Worker) (h : 0 < w.assembling_time_left)
    (h2 : w.assembling_time_left ≠ 1) :
    w.step_assembly =
      { w with assembling_time_left := w.assembling_time_left - 1 } := by
  unfold step_assembly is_assembling
  simp only [decide_eq_true_eq, h, if_pos]
  have : ¬(w.assembling_time_left - 1 = 0) := by omega
  simp [this]

theorem step_assembly_of_one (w : Worker) (h : w.assembling_time_left = 1) :
    w.step_assembly =
      { w with
          assembling_time_left := 0
          hand_left := some Item.C
          hand_right := none
          products_made := w.products_made + 1 } := by
  unfold step_assembly is_assembling
  simp [h]

theorem step_assembly_of_zero (w : Worker) (h : w.assembling_time_left = 0) :
    w.step_assembly = w := by
  unfold step_assembly is_assembling
  simp [h]

theorem stepsAssembly_lt (k : Nat) :
    ∀ w : Worker, k < w.assembling_time_left →
      w.stepsAssembly k =
        { w with assembling_time_left := w.assembling_time_left - k } := by
  induction k with
  | zero => intro w _; simp [stepsAssembly]
  | succ n ih =>
    intro w hk
    have h1 : 0 < w.assembling_time_left := by omega
    have h2 : w.assembling_time_left ≠ 1 := by omega
    simp only [stepsAssembly]
    rw [step_assembly_of_pos w h1 h2]
    rw [ih _ (by simp; omega)]
    simp
    omega

theorem stepsAssembly_complete (T : Nat) :
    ∀ w : Worker, w.assembling_time_left = T → 0 < T →
      w.stepsAssembly T =
        { w with
            assembling_time_left := 0
            hand_left := some Item.C
            hand_right := none
            products_made := w.products_made + 1 } := by
  induction T with
  | zero => intro w _ h; omega
  | succ n ih =>
    intro w hT _
    simp only [stepsAssembly]
    by_cases hn : n = 0
    · subst hn
      rw [step_assembly_of_one w (by omega)]
      simp [stepsAssembly]
    · rw [step_assembly_of_pos w (by omega) (by omega)]
      rw [ih _ (by simp [hT]) (by omega)]

theorem stepsAssembly_stuck (m : Nat) :
    ∀ w : Worker, w.assembling_time_left = 0 → w.stepsAssembly m = w := by
  induction m with
  | zero => intro w _; rfl
  | succ n ih =>
    intro w h0
    simp only [stepsAssembly]
    rw [step_assembly_of_zero w h0]
    exact ih w h0

theorem start_assembly_of_can (w : Worker) (h : w.can_assemble = true) :
    w.start_assembly = { w with assembling_time_left := w.assembly_time } := by
  unfold start_assembly
  simp [h]

end Worker

/-- C9: starting assembly with `assembly_time = T > 0` yields product `C`
after exactly `T` calls to `step_assembly` — hands and product count are
untouched by the first `T - 1` calls, the `T`-th leaves `hand_left = C`,
`hand_right` empty and `products_made` incremented by one, and the completion
fires exactly once (further calls change nothing). -/
theorem claim_C9_assembly_timing (w : Worker) (T : Nat)
    (hca : w.can_assemble = true) (hT : w.assembly_time = T) (hpos : 0 < T) :
    (∀ k, k < T →
        (w.start_assembly.stepsAssembly k).hand_left = w.hand_left ∧
        (w.start_assembly.stepsAssembly k).hand_right = w.hand_right ∧
        (w.start_assembly.stepsAssembly k).products_made = w.products_made ∧
        (w.start_assembly.stepsAssembly k).assembling_time_left = T - k) ∧
    (w.start_assembly.stepsAssembly T).hand_left = some Item.C ∧
    (w.start_assembly.stepsAssembly T).hand_right = none ∧
    (w.start_assembly.stepsAssembly T).products_made = w.products_made + 1 ∧
    (∀ m, w.start_assembly.stepsAssembly (T + m) =
      w.start_assembly.stepsAssembly T) := by
  have hs : w.start_assembly = { w with assembling_time_left := w.assembly_time } :=
    Worker.start_assembly_of_can w hca
  have hst : w.start_assembly.assembling_time_left = T := by rw [hs, hT]
  have hcomplete := Worker.stepsAssembly_complete T w.start_assembly hst hpos
  refine ⟨?_, ?_, ?_, ?_, ?_⟩
  · intro k hk
    have := Worker.stepsAssembly_lt k w.start_assembly (by omega)
    rw [this, hst, hs]
    simp
  · rw [hcomplete]
  · rw [hcomplete]
  · rw [hcomplete, hs]
  · intro m
    rw [Worker.stepsAssembly_add, hcomplete]
    exact Worker.stepsAssembly_stuck m _ rfl

/-- Witness for C9 at a concrete worker holding `A` and `B` with
`assembly_time = 4`. -/
theorem claim_C9_assembly_timing_witness :
    ((⟨0, some Item.A, some Item.B, 0, 0, 4⟩ : Worker).start_assembly.stepsAssembly 3).products_made = 0 ∧
    ((⟨0, some Item.A, some Item.B, 0, 0, 4⟩ : Worker).start_assembly.stepsAssembly 3).hand_left = some Item.A ∧
    ((⟨0, some Item.A, some Item.B, 0, 0, 4⟩ : Worker).start_assembly.stepsAssembly 4).hand_left = some Item.C ∧
    ((⟨0, some Item.A, some Item.B, 0, 0, 4⟩ : Worker).start_assembly.stepsAssembly 4).products_made = 1 := by
  have h := claim_C9_assembly_timing ⟨0, some Item.A, some Item.B, 0, 0, 4⟩ 4
    (by decide) rfl (by decide)
  obtain ⟨hlt, hL, _, hP, _⟩ := h
  obtain ⟨h3L, _, h3P, _⟩ := hlt 3 (by decide)
  exact ⟨h3P, h3L, hL, hP⟩

/-- C6 counterexample: `num_worker_pairs * 2 = belt_length + 1` is accepted
at construction (5 pairs, belt length 9), where the claim demands a
configuration error: the source only checks `num_worker_pairs > belt_length`. -/
theorem claim_C6_counterexample :
    5 * 2 = 9 + 1 ∧
      (Simulation.init 5 9 "individual" 4).toOption.isSome = true := by
  decide

/-- C6 amended: construction succeeds exactly when the number of worker
pairs (not workers) is at most the belt length and the strategy name is
known; in particular both `pairs * 2 = belt_length` and
`pairs * 2 = belt_length + 1` are accepted. -/
theorem claim_C6_construction_constraint (num_worker_pairs belt_length : Nat)
    (strategy_name : String) (assembly_time : Nat) :
    (Simulation.init num_worker_pairs belt_length strategy_name
        assembly_time).toOption.isSome = true ↔
      (num_worker_pairs ≤ belt_length ∧
        (strategy_name = "individual" ∨ strategy_name = "team")) := by
  unfold Simulation.init
  split_ifs with h1 h2
  · simp [Except.toOption]
    omega
  · simp [Except.toOption]
    exact ⟨by omega, h2⟩
  · simp [Except.toOption]
    tauto

/-- C4: the code contradicts its own tests (`test_worker_is_locked_during_assembly`
asserts the timer is not stepped by `act()`): `IndividualStrategy.act` on an
assembling worker (hands `A`,`B`, timer 3, the test's exact setup) decrements
the assembly timer to 2 instead of leaving the worker untouched. -/
theorem claim_C4_act_steps_assembling_worker :
    IndividualStrategy.act ⟨0, some Item.A, some Item.B, 3, 0, 4⟩
        (Worker.init 1 4) [⟨[some Item.A, none, none, none, none], 0, 0⟩] 0 =
      Except.ok (⟨0, some Item.A, some Item.B, 2, 0, 4⟩,
        [⟨[some Item.A, none, none, none, none], 0, 0⟩]) := by
  rfl

namespace Worker

/-- Reachable assembling workers hold exactly one `A` and one `B`. -/
theorem reach_assembling_hands {w : Worker} (hr : Reach w) :
    w.is_assembling = true →
      (w.hand_left = some Item.A ∧ w.hand_right = some Item.B) ∨
        (w.hand_left = some Item.B ∧ w.hand_right = some Item.A) := by
  induction hr with
  | init id t => intro h; simp [Worker.init, is_assembling] at h
  | pickup item hr hp ih =>
    intro h
    rename_i w w'
    unfold pickup at hp
    by_cases h1 : w.hand_left = none
    · rw [if_pos h1] at hp
      injection hp with hw
      subst hw
      have := ih (by simpa [is_assembling] using h)
      simp_all
    · rw [if_neg h1] at hp
      by_cases h2 : w.hand_right = none
      · rw [if_pos h2] at hp
        injection hp with hw
        subst hw
        have := ih (by simpa [is_assembling] using h)
        simp_all
      · rw [if_neg h2] at hp
        exact Option.noConfusion hp
  | start hr ih =>
    intro h
    rename_i w
    unfold start_assembly at h ⊢
    by_cases hc : w.can_assemble = true
    · rw [if_pos hc] at h ⊢
      unfold can_assemble at hc
      simp only [Bool.decide_and, Bool.decide_or, Bool.and_eq_true,
        Bool.or_eq_true, decide_eq_true_eq] at hc
      rcases hc.1 with ⟨hl, hrr⟩ | ⟨hl, hrr⟩
      · exact Or.inl ⟨hl, hrr⟩
      · exact Or.inr ⟨hl, hrr⟩
    · rw [if_neg hc] at h ⊢
      exact ih h
  | step hr ih =>
    intro h
    rename_i w
    by_cases h1 : w.is_assembling = true
    · by_cases h2 : w.assembling_time_left = 1
      · rw [step_assembly_of_one w h2] at h
        simp [is_assembling] at h
      · have hpos : 0 < w.assembling_time_left := by
          simpa [is_assembling] using h1
        rw [step_assembly_of_pos w hpos h2] at h ⊢
        simpa using ih h1
    · have ht : w.assembling_time_left = 0 := by
        rcases Nat.eq_zero_or_pos w.assembling_time_left with h0 | h0
        · exact h0
        · exact absurd (by simpa [is_assembling] using h0) h1
      rw [step_assembly_of_zero w ht] at h ⊢
      exact ih h
  | place hr ih =>
    intro h
    rename_i w
    unfold place_product at h ⊢
    by_cases h1 : w.is_holding_product = true
    · have hw : w.is_assembling = true := by
        rw [if_pos h1] at h
        by_cases h2 : w.hand_left = some Item.C
        · rw [if_pos h2] at h
          simpa [is_assembling] using h
        · rw [if_neg h2] at h
          simpa [is_assembling] using h
      rcases ih hw with ⟨hl, hrr⟩ | ⟨hl, hrr⟩ <;>
        simp [is_holding_product, hl, hrr] at h1
    · rw [if_neg h1] at h ⊢
      exact ih h

end Worker

/-- C10: for a reachable worker holding exactly one finished product `C` and
nothing else, `needs()` reports both `A` and `B` as needed while
`needs_component` denies both — the two need queries disagree. -/
theorem claim_C10_needs_disagreement (w : Worker) (hr : Worker.Reach w)
    (hc : (w.hand_left = some Item.C ∧ w.hand_right = none) ∨
      (w.hand_left = none ∧ w.hand_right = some Item.C)) :
    (Item.A ∈ w.needs ∧ Item.B ∈ w.needs) ∧
      w.needs_component Item.A = false ∧
      w.needs_component Item.B = false := by
  have hna : w.is_assembling = false := by
    by_contra hx
    have hass : w.is_assembling = true := by
      cases hass : w.is_assembling
      · exact absurd hass hx
      · rfl
    rcases Worker.reach_assembling_hands hr hass with ⟨hl, _⟩ | ⟨hl, _⟩ <;>
      rcases hc with ⟨hcl, hcr⟩ | ⟨hcl, hcr⟩ <;> simp_all
  rcases hc with ⟨hcl, hcr⟩ | ⟨hcl, hcr⟩ <;>
    constructor <;>
      simp [Worker.needs, Worker.needs_component, Worker.is_full, hna,
        hcl, hcr]

/-- Witness for C10 at a worker reached by picking up `A` and `B`,
starting a one-tick assembly and stepping it to completion. -/
theorem claim_C10_needs_disagreement_witness :
    (Item.A ∈ (⟨0, some Item.C, none, 0, 1, 1⟩ : Worker).needs ∧
        Item.B ∈ (⟨0, some Item.C, none, 0, 1, 1⟩ : Worker).needs) ∧
      (⟨0, some Item.C, none, 0, 1, 1⟩ : Worker).needs_component Item.A = false ∧
      (⟨0, some Item.C, none, 0, 1, 1⟩ : Worker).needs_component Item.B = false := by
  have r0 : Worker.Reach (Worker.init 0 1) := Worker.Reach.init 0 1
  have r1 : Worker.Reach ⟨0, some Item.A, none, 0, 0, 1⟩ :=
    Worker.Reach.pickup Item.A r0 (by decide)
  have r2 : Worker.Reach ⟨0, some Item.A, some Item.B, 0, 0, 1⟩ :=
    Worker.Reach.pickup Item.B r1 (by decide)
  have hstart : (⟨0, some Item.A, some Item.B, 0, 0, 1⟩ : Worker).start_assembly =
      ⟨0, some Item.A, some Item.B, 1, 0, 1⟩ := by decide
  have r3 : Worker.Reach ⟨0, some Item.A, some Item.B, 1, 0, 1⟩ :=
    hstart ▸ Worker.Reach.start r2
  have hstep : (⟨0, some Item.A, some Item.B, 1, 0, 1⟩ : Worker).step_assembly =
      ⟨0, some Item.C, none, 0, 1, 1⟩ := by decide
  have r4 : Worker.Reach ⟨0, some Item.C, none, 0, 1, 1⟩ :=
    hstep ▸ Worker.Reach.step r3
  exact claim_C10_needs_disagreement _ r4 (Or.inl ⟨rfl, rfl⟩)

namespace IndividualStrategy

theorem firstEmptySlots_spec :
    ∀ (l : List (Option Item)) (k j : Nat), firstEmptySlots l k = some j →
      k ≤ j ∧ l.get? (j - k) = some none ∧
        ∀ j', j' < j - k → ∀ s, l.get? j' = some s → s ≠ none := by
  intro l
  induction l with
  | nil => intro k j h; exact Option.noConfusion h
  | cons s rest ih =>
    intro k j h
    unfold firstEmptySlots at h
    by_cases hs : s = none
    · rw [if_pos hs] at h
      injection h with hj
      subst hj
      refine ⟨Nat.le_refl k, ?_, ?_⟩
      · simp [hs]
      · intro j' hj'
        omega
    · rw [if_neg hs] at h
      obtain ⟨hk, hget, hbefore⟩ := ih (k + 1) j h
      refine ⟨by omega, ?_, ?_⟩
      · have : j - k = (j - (k + 1)) + 1 := by omega
        rw [this]
        simpa using hget
      · intro j' hj' t ht
        match j', ht with
        | 0, ht => injection ht with ht; subst ht; exact hs
        | m + 1, ht =>
          exact hbefore m (by omega) t (by simpa using ht)

theorem firstEmptySlots_none :
    ∀ (l : List (Option Item)) (k : Nat), firstEmptySlots l k = none →
      ∀ j s, l.get? j = some s → s ≠ none := by
  intro l
  induction l with
  | nil => intro k _ j s h; simp at h
  | cons x rest ih =>
    intro k h j s hget
    unfold firstEmptySlots at h
    by_cases hx : x = none
    · rw [if_pos hx] at h; exact Option.noConfusion h
    · rw [if_neg hx] at h
      match j, hget with
      | 0, hget => injection hget with hget; subst hget; exact hx
      | m + 1, hget => exact ih (k + 1) h m s (by simpa using hget)

theorem firstEmpty_spec :
    ∀ (bs : List ConveyorBelt) (k i j : Nat), firstEmpty bs k = some (i, j) →
      k ≤ i ∧
        (∃ b, bs.get? (i - k) = some b ∧ firstEmptySlots b.slots 0 = some j) ∧
        ∀ i', i' < i - k → ∀ b, bs.get? i' = some b →
          firstEmptySlots b.slots 0 = none := by
  intro bs
  induction bs with
  | nil => intro k i j h; exact Option.noConfusion h
  | cons b rest ih =>
    intro k i j h
    unfold firstEmpty at h
    cases hfs : firstEmptySlots b.slots 0 with
    | some j0 =>
      rw [hfs] at h
      injection h with h
      injection h with h1 h2
      subst h1; subst h2
      refine ⟨Nat.le_refl k, ⟨b, by simp, hfs⟩, ?_⟩
      intro i' hi'
      omega
    | none =>
      rw [hfs] at h
      obtain ⟨hk, ⟨b0, hb0, hb0s⟩, hbefore⟩ := ih (k + 1) i j h
      refine ⟨by omega, ⟨b0, ?_, hb0s⟩, ?_⟩
      · have : i - k = (i - (k + 1)) + 1 := by omega
        rw [this]
        simpa using hb0
      · intro i' hi' c hc
        match i', hc with
        | 0, hc => injection hc with hc; subst hc; exact hfs
        | m + 1, hc => exact hbefore m (by omega) c (by simpa using hc)

theorem place_product_snd (w : Worker) (hw : w.is_holding_product = true) :
    w.place_product.2 = some Item.C := by
  unfold Worker.place_product
  rw [if_pos hw]
  split_ifs <;> rfl

end IndividualStrategy

/-- C5 counterexample: under the Individual strategy a worker at station 1
holding a product, with its own station slot occupied by `A`, still places
the product — into slot 0 of the belt, not its station slot.  The claim
says placement happens only when the own station slot is empty and only into
that slot. -/
theorem claim_C5_counterexample :
    IndividualStrategy.act ⟨0, some Item.C, none, 0, 1, 4⟩ (Worker.init 1 4)
        [⟨[none, some Item.A], 0, 0⟩] 1 =
      Except.ok ((⟨0, none, none, 0, 1, 4⟩ : Worker),
        [⟨[some Item.C, some Item.A], 0, 0⟩]) := by
  rfl

/-- C5 amended: a worker holding a finished product places it into the first
empty slot in belt-major, slot-minor scan order over all belts, regardless of
the station index — the scan target is empty, every slot before it in scan
order is occupied, and the placement is exactly there. -/
theorem claim_C5_individual_places_first_empty (w p : Worker)
    (belts : List ConveyorBelt) (si i j : Nat)
    (hw : w.is_holding_product = true)
    (hfe : IndividualStrategy.firstEmpty belts 0 = some (i, j)) :
    IndividualStrategy.act w p belts si =
        Except.ok (w.place_product.1, updateSlot belts i j (some Item.C)) ∧
      getSlot belts i j = some none ∧
      (∀ j', j' < j → ∀ s, getSlot belts i j' = some s → s ≠ none) ∧
      (∀ i', i' < i → ∀ b, belts.get? i' = some b →
        ∀ j' s, b.slots.get? j' = some s → s ≠ none) := by
  obtain ⟨-, ⟨b, hb, hbs⟩, hbefore⟩ :=
    IndividualStrategy.firstEmpty_spec belts 0 i j hfe
  rw [Nat.sub_zero] at hb hbefore
  obtain ⟨-, hslot, hslotbefore⟩ :=
    IndividualStrategy.firstEmptySlots_spec b.slots 0 j hbs
  rw [Nat.sub_zero] at hslot hslotbefore
  refine ⟨?_, ?_, ?_, ?_⟩
  · unfold IndividualStrategy.act
    rw [hw]
    simp only [if_pos, hfe, Option.map_some']
    rw [IndividualStrategy.place_product_snd w hw]
  · unfold getSlot
    rw [hb]
    simpa using hslot
  · intro j' hj' s hs
    unfold getSlot at hs
    rw [hb] at hs
    simp only [Option.some_bind] at hs
    exact hslotbefore j' hj' s hs
  · intro i' hi' b' hb' j' s hs
    exact IndividualStrategy.firstEmptySlots_none b'.slots 0
      (hbefore i' hi' b' hb') j' s hs

/-- Witness for C5 at a concrete holding worker over a two-slot belt whose
first slot is occupied. -/
theorem claim_C5_individual_places_first_empty_witness :
    IndividualStrategy.act ⟨7, some Item.C, none, 0, 1, 4⟩ (Worker.init 1 4)
        [⟨[some Item.A, none], 0, 0⟩] 0 =
      Except.ok ((⟨7, some Item.C, none, 0, 1, 4⟩ : Worker).place_product.1,
        updateSlot [⟨[some Item.A, none], 0, 0⟩] 0 1 (some Item.C)) ∧
      getSlot [⟨[some Item.A, none], 0, 0⟩] 0 1 = some none := by
  have h := claim_C5_individual_places_first_empty
    ⟨7, some Item.C, none, 0, 1, 4⟩ (Worker.init 1 4)
    [⟨[some Item.A, none], 0, 0⟩] 0 0 1 (by rfl) (by rfl)
  exact ⟨h.1, h.2.1⟩

theorem pickBetter_fold_spec {α : Type} :
    ∀ (l : List (Int × α)) (acc : Option (Int × α)) (x : Int × α),
      l.foldl pickBetter acc = some x →
        (x ∈ l ∨ acc = some x) ∧ (∀ y ∈ l, y.1 ≤ x.1) ∧
          (∀ b, acc = some b → b.1 ≤ x.1) := by
  intro l
  induction l with
  | nil =>
    intro acc x h
    simp only [List.foldl_nil] at h
    exact ⟨Or.inr h, by simp, fun b hb => by rw [h] at hb; injection hb with hb; rw [hb]⟩
  | cons hd t ih =>
    intro acc x h
    simp only [List.foldl_cons] at h
    obtain ⟨hmem, hle, hacc⟩ := ih (pickBetter acc hd) x h
    have hhd : hd.1 ≤ x.1 := by
      cases acc with
      | none => exact hacc hd rfl
      | some b =>
        by_cases hlt : b.1 < hd.1
        · exact hacc hd (by simp [pickBetter, hlt])
        · have hb := hacc b (by simp [pickBetter, hlt])
          omega
    refine ⟨?_, ?_, ?_⟩
    · rcases hmem with hx | hx
      · exact Or.inl (List.mem_cons_of_mem hd hx)
      · cases acc with
        | none =>
          simp only [pickBetter] at hx
          injection hx with hx
          exact Or.inl (hx ▸ List.mem_cons_self hd t)
        | some b =>
          by_cases hlt : b.1 < hd.1
          · simp only [pickBetter, hlt, if_pos] at hx
            injection hx with hx
            exact Or.inl (hx ▸ List.mem_cons_self hd t)
          · simp only [pickBetter, hlt, if_neg, if_false] at hx
            exact Or.inr hx
    · intro y hy
      rcases List.mem_cons.mp hy with hy | hy
      · exact hy ▸ hhd
      · exact hle y hy
    · intro b hb
      cases acc with
      | none => exact Option.noConfusion hb
      | some b0 =>
        have hb' : b0 = b := by injection hb
        subst hb'
        by_cases hlt : b0.1 < hd.1
        · have := hacc hd (by simp [pickBetter, hlt])
          omega
        · exact hacc b0 (by simp [pickBetter, hlt])

theorem selectFirstMax_spec {α : Type} (l : List (Int × α)) (x : Int × α)
    (h : selectFirstMax l = some x) :
    x ∈ l ∧ ∀ y ∈ l, y.1 ≤ x.1 := by
  obtain ⟨hmem, hle, -⟩ := pickBetter_fold_spec l none x h
  rcases hmem with hx | hx
  · exact ⟨hx, hle⟩
  · exact Option.noConfusion hx

namespace TeamStrategy

theorem placeSlots_mem :
    ∀ (l : List (Option Item)) (i j0 : Nat) (sa : Int × TeamAction),
      sa ∈ placeCandidates.placeSlots l i j0 →
        sa.1 = 100 ∧ ∃ j, sa.2 = TeamAction.place_product i j := by
  intro l
  induction l with
  | nil => intro i j0 sa h; simp [placeCandidates.placeSlots] at h
  | cons s rest ih =>
    intro i j0 sa h
    unfold placeCandidates.placeSlots at h
    rcases List.mem_append.mp h with h | h
    · by_cases hs : s = none
      · rw [if_pos hs] at h
        rcases List.mem_singleton.mp h with rfl
        exact ⟨rfl, j0, rfl⟩
      · rw [if_neg hs] at h
        simp at h
    · exact ih i (j0 + 1) sa h

theorem placeCandidates_mem :
    ∀ (bs : List ConveyorBelt) (i0 : Nat) (sa : Int × TeamAction),
      sa ∈ placeCandidates bs i0 →
        sa.1 = 100 ∧ ∃ i j, sa.2 = TeamAction.place_product i j := by
  intro bs
  induction bs with
  | nil => intro i0 sa h; simp [placeCandidates] at h
  | cons b rest ih =>
    intro i0 sa h
    unfold placeCandidates at h
    rcases List.mem_append.mp h with h | h
    · obtain ⟨hs, j, hj⟩ := placeSlots_mem b.slots i0 0 sa h
      exact ⟨hs, i0, j, hj⟩
    · exact ih (i0 + 1) sa h

theorem giveCandidate_mem (worker partner : Worker) (sa : Int × TeamAction)
    (h : sa ∈ giveCandidate worker partner) :
    sa.1 = 70 ∧ ∃ c, sa.2 = TeamAction.give_component c := by
  unfold giveCandidate at h
  split_ifs at h with h1
  · cases hr : worker.hand_right with
    | none => rw [hr] at h; simp at h
    | some c =>
      rw [hr] at h
      by_cases h2 : partner.needs_component c = true
      · simp only [h2, if_pos] at h
        rcases List.mem_singleton.mp h with rfl
        exact ⟨rfl, c, rfl⟩
      · simp only [Bool.not_eq_true] at h2
        simp [h2] at h
  · simp at h

theorem pickupSlots_mem (worker partner : Worker) (station_index bi : Nat) :
    ∀ (l : List (Option Item)) (si0 : Nat) (sa : Int × TeamAction),
      sa ∈ pickupCandidates.pickupSlots worker partner station_index bi l si0 →
        ∃ c j, sa.2 = TeamAction.pickupAction c bi j ∧
          sa.1 = 60 - ((((station_index : Int) - (j : Int)).natAbs : Int)) * 5 +
            (if worker.needs_component c then 5 else 0) := by
  intro l
  induction l with
  | nil => intro si0 sa h; simp [pickupCandidates.pickupSlots] at h
  | cons s rest ih =>
    intro si0 sa h
    unfold pickupCandidates.pickupSlots at h
    rcases List.mem_append.mp h with h | h
    · cases s with
      | none => simp at h
      | some c =>
        dsimp only at h
        by_cases hab : c = Item.A ∨ c = Item.B
        · rw [if_pos hab] at h
          by_cases hw : worker.needs_component c = true
          · simp only [hw, if_pos] at h
            rcases List.mem_singleton.mp h with rfl
            exact ⟨c, si0, rfl, by simp [hw]⟩
          · simp only [Bool.not_eq_true] at hw
            simp only [hw, Bool.false_eq_true, if_false] at h
            by_cases hp : partner.needs_component c = true
            · simp only [hp, if_pos] at h
              rcases List.mem_singleton.mp h with rfl
              exact ⟨c, si0, rfl, by simp [hw]⟩
            · simp only [Bool.not_eq_true] at hp
              simp [hp] at h
        · rw [if_neg hab] at h
          simp at h
    · exact ih (si0 + 1) sa h

theorem pickupCandidates_mem (worker partner : Worker) (station_index : Nat) :
    ∀ (bs : List ConveyorBelt) (bi0 : Nat) (sa : Int × TeamAction),
      sa ∈ pickupCandidates worker partner station_index bs bi0 →
        ∃ c i j, sa.2 = TeamAction.pickupAction c i j ∧
          sa.1 = 60 - ((((station_index : Int) - (j : Int)).natAbs : Int)) * 5 +
            (if worker.needs_component c then 5 else 0) := by
  intro bs
  induction bs with
  | nil => intro bi0 sa h; simp [pickupCandidates] at h
  | cons b rest ih =>
    intro bi0 sa h
    unfold pickupCandidates at h
    rcases List.mem_append.mp h with h | h
    · obtain ⟨c, j, hact, hscore⟩ :=
        pickupSlots_mem worker partner station_index bi0 b.slots 0 sa h
      exact ⟨c, bi0, j, hact, hscore⟩
    · exact ih (bi0 + 1) sa h

end TeamStrategy

/-- C3 counterexample: the Team scores the claim asserts are not the code's.
At concrete states, starting assembly is enumerated with score 80 (claim: 90),
giving a needed surplus component scores 70 (claim: 80), and picking up a
component at the worker's own station scores 65 = 60 base + 5 self-need bonus
(claim: 70 base + 5). -/
theorem claim_C3_counterexample :
    TeamStrategy.possible_actions ⟨0, some Item.A, some Item.B, 0, 0, 4⟩
        (Worker.init 1 4) [⟨[none, none], 0, 0⟩] 0 =
      [((80 : Int), TeamAction.startAssembly)] ∧
    TeamStrategy.possible_actions ⟨0, some Item.A, some Item.A, 0, 0, 4⟩
        (Worker.init 1 4) [⟨[none], 0, 0⟩] 0 =
      [((70 : Int), TeamAction.give_component Item.A)] ∧
    TeamStrategy.possible_actions ⟨0, none, none, 0, 0, 4⟩
        (Worker.init 1 4) [⟨[some Item.A], 0, 0⟩] 0 =
      [((65 : Int), TeamAction.pickupAction Item.A 0 0)] := by
  exact ⟨rfl, rfl, rfl⟩

/-- C3 amended: in the Team scoring, placing scores 100, continuing an
assembly 90, starting assembly 80, giving a needed surplus component 70, and
picking up a component `60 - 5 * distance` from the worker's station plus 5
when the worker itself needs it; the committed action is one of maximal
score among the enumerated candidates. -/
theorem claim_C3_team_scoring (worker partner : Worker)
    (belts : List ConveyorBelt) (station_index : Nat) :
    (∀ sa ∈ TeamStrategy.possible_actions worker partner belts station_index,
        TeamStrategy.teamScoreSpec worker station_index sa) ∧
    (∀ a, TeamStrategy.get_best_action worker partner belts station_index =
        some a →
      ∃ s, (s, a) ∈ TeamStrategy.possible_actions worker partner belts
          station_index ∧
        ∀ sb ∈ TeamStrategy.possible_actions worker partner belts
            station_index, sb.1 ≤ s) := by
  constructor
  · intro sa hsa
    unfold TeamStrategy.possible_actions at hsa
    rcases List.mem_append.mp hsa with h | h
    · rcases List.mem_append.mp h with h | h
      · rcases List.mem_append.mp h with h | h
        · rcases List.mem_append.mp h with h | h
          · by_cases hw : worker.is_holding_product = true
            · rw [if_pos hw] at h
              obtain ⟨hs, i, j, ha⟩ :=
                TeamStrategy.placeCandidates_mem belts 0 sa h
              unfold TeamStrategy.teamScoreSpec
              rw [ha]
              exact hs
            · simp only [Bool.not_eq_true] at hw
              simp [hw] at h
          · by_cases hw : worker.is_assembling = true
            · rw [if_pos hw] at h
              rcases List.mem_singleton.mp h with rfl
              exact rfl
            · simp only [Bool.not_eq_true] at hw
              simp [hw] at h
        · by_cases hw : worker.can_assemble = true
          · rw [if_pos hw] at h
            rcases List.mem_singleton.mp h with rfl
            exact rfl
          · simp only [Bool.not_eq_true] at hw
            simp [hw] at h
      · obtain ⟨hs, c, ha⟩ := TeamStrategy.giveCandidate_mem worker partner sa h
        unfold TeamStrategy.teamScoreSpec
        rw [ha]
        exact hs
    · by_cases hw : (!worker.is_full) = true
      · rw [if_pos hw] at h
        obtain ⟨c, i, j, ha, hs⟩ :=
          TeamStrategy.pickupCandidates_mem worker partner station_index
            belts 0 sa h
        unfold TeamStrategy.teamScoreSpec
        rw [ha]
        exact hs
      · simp only [Bool.not_eq_true] at hw
        simp [hw] at h
  · intro a ha
    unfold TeamStrategy.get_best_action TeamStrategy.selectBest at ha
    cases hsel : selectFirstMax
        (TeamStrategy.possible_actions worker partner belts station_index) with
    | none => rw [hsel] at ha; exact Option.noConfusion ha
    | some sx =>
      rw [hsel] at ha
      injection ha with ha
      obtain ⟨hmem, hle⟩ := selectFirstMax_spec _ sx hsel
      have ha' : sx.2 = a := ha
      refine ⟨sx.1, ?_, hle⟩
      rw [← ha']
      simpa using hmem

/-- Witness for C3: at a worker holding `A` and `B`, the committed action is
`startAssembly` and its maximal score among the candidates is realised. -/
theorem claim_C3_team_scoring_witness :
    TeamStrategy.teamScoreSpec ⟨0, some Item.A, some Item.B, 0, 0, 4⟩ 0
        ((80 : Int), TeamAction.startAssembly) ∧
      ∃ s, (s, TeamAction.startAssembly) ∈
          TeamStrategy.possible_actions ⟨0, some Item.A, some Item.B, 0, 0, 4⟩
            (Worker.init 1 4) [⟨[none, none], 0, 0⟩] 0 ∧
        ∀ sb ∈ TeamStrategy.possible_actions
            ⟨0, some Item.A, some Item.B, 0, 0, 4⟩ (Worker.init 1 4)
            [⟨[none, none], 0, 0⟩] 0, sb.1 ≤ s := by
  have h := claim_C3_team_scoring ⟨0, some Item.A, some Item.B, 0, 0, 4⟩
    (Worker.init 1 4) [⟨[none, none], 0, 0⟩] 0
  exact ⟨h.1 ((80 : Int), TeamAction.startAssembly) (by decide),
    h.2 TeamAction.startAssembly (by decide)⟩

/-- C1 counterexample: on a fresh 1-pair Individual simulation over a
two-slot belt, a tick whose draw is `A` does not equal the claim's phase
order (timers, then strategies, then belt shift+refill): the code advances
the belt first, so when the strategy loop dies on the first empty-handed
worker (the driver hands the strategy a bare belt where a list is expected)
the refilled slot is already on the belt, which the claim's order would have
left empty. -/
theorem claim_C1_counterexample :
    Simulation.run_step
        ⟨1, 2, "individual", 4, ⟨[none, none], 0, 0⟩,
          [Worker.init 0 4, Worker.init 1 4]⟩ RandDraw.drawA ≠
      Simulation.specOrderStep
        ⟨1, 2, "individual", 4, ⟨[none, none], 0, 0⟩,
          [Worker.init 0 4, Worker.init 1 4]⟩ RandDraw.drawA := by
  decide

/-- C1 amended: each tick applies its phases in the order (1) belt advance
via shift and refill, (2) assembly timers advance for all workers,
(3) strategy decisions execute, reading and writing the state as it stood
after the belt moved and the timers advanced. -/
theorem claim_C1_tick_order (sim : Simulation) (d : RandDraw) :
    Simulation.run_step sim d =
      Simulation.strategyPhase (Simulation.timerPhase (Simulation.beltPhase sim d)) := by
  rfl

theorem runSim_congr (steps : Nat) :
    ∀ (sim : Simulation) (s1 s2 : Nat → RandDraw) (cursor : Nat),
      (∀ i, i < steps → s1 (cursor + i) = s2 (cursor + i)) →
      Simulation.runSim sim steps s1 cursor =
        Simulation.runSim sim steps s2 cursor := by
  induction steps with
  | zero => intro sim s1 s2 cursor _; rfl
  | succ n ih =>
    intro sim s1 s2 cursor h
    have h0 : s1 cursor = s2 cursor := by
      have := h 0 (by omega)
      simpa using this
    unfold Simulation.runSim
    rw [h0]
    cases hstep : Simulation.run_step sim (s2 cursor) with
    | mk sim' e =>
      cases e with
      | some e => rfl
      | none =>
        exact ih sim' s1 s2 (cursor + 1) fun i hi => by
          have := h (i + 1) (by omega)
          have harith : cursor + (i + 1) = cursor + 1 + i := by omega
          rw [harith] at this
          exact this

/-- C7 amended: the aggregate output is a deterministic function of the
configuration and the refill draws the run consumes — two runs whose draw
streams agree on the run's ticks produce identical aggregate output.  (No
seed is injectable: the draws come from the process-global `random` stream.) -/
theorem claim_C7_output_determinism (sim : Simulation) (steps : Nat)
    (s1 s2 : Nat → RandDraw) (cursor : Nat)
    (h : ∀ i, i < steps → s1 (cursor + i) = s2 (cursor + i)) :
    Simulation.runOutput sim steps s1 cursor =
      Simulation.runOutput sim steps s2 cursor := by
  unfold Simulation.runOutput
  rw [runSim_congr steps sim s1 s2 cursor h]

/-- Witness for C7: two streams that agree on the two consumed draws give
identical output on a two-tick run. -/
theorem claim_C7_output_determinism_witness :
    Simulation.runOutput ⟨0, 1, "individual", 4, ⟨[none], 0, 0⟩, []⟩ 2
        (fun n => if n = 5 then RandDraw.drawB else RandDraw.drawA) 0 =
      Simulation.runOutput ⟨0, 1, "individual", 4, ⟨[none], 0, 0⟩, []⟩ 2
        (fun _ => RandDraw.drawA) 0 := by
  exact claim_C7_output_determinism _ 2 _ _ 0
    (by intro i hi; interval_cases i <;> rfl)

theorem belt_phase_mass (c : Item) (hc : c = Item.A ∨ c = Item.B)
    (b : ConveyorBelt) (d : RandDraw) (hne : b.slots ≠ []) :
    beltCount c (b.step_with_random_item d).1 +
        missedOf c (b.step_with_random_item d).1 =
      beltCount c b + missedOf c b +
        (if d.toSlot = some c then 1 else 0) := by
  have hlast : b.slots.getLast? = some (b.slots.getLast hne) :=
    List.getLast?_eq_getLast b.slots hne
  have hsplit : b.slots.dropLast ++ [b.slots.getLast hne] = b.slots :=
    List.dropLast_append_getLast hne
  have hcount : beltCount c b =
      b.slots.dropLast.countP (fun s => s = some c) +
        (if b.slots.getLast hne = some c then 1 else 0) := by
    unfold beltCount
    conv_lhs => rw [← hsplit]
    rw [List.countP_append]
    simp [List.countP_cons]
  rw [hcount]
  unfold ConveyorBelt.step_with_random_item ConveyorBelt.step
  rw [hlast]
  dsimp only
  unfold beltCount missedOf
  cases hL : b.slots.getLast hne with
  | none =>
    rcases hc with rfl | rfl <;> cases d <;>
      simp [List.countP_cons, RandDraw.toSlot] <;> omega
  | some it =>
    cases it <;> rcases hc with rfl | rfl <;> cases d <;>
      simp [List.countP_cons, RandDraw.toSlot] <;> omega

/-- C7 counterexample: the refill source is the process-global `random`
stream, not an injectable seed — a second run of the identical zero-worker
configuration in the same process continues the stream where the first run
left it and reports different aggregate output (`missed_a = 1, missed_b = 0`
versus `missed_a = 0, missed_b = 1`). -/
theorem claim_C7_counterexample :
    (Simulation.runOutput ⟨0, 1, "individual", 4, ⟨[none], 0, 0⟩, []⟩ 2
        (fun n => if n = 0 then RandDraw.drawA
          else if n = 2 then RandDraw.drawB else RandDraw.drawNone) 0).1 ≠
      (Simulation.runOutput ⟨0, 1, "individual", 4, ⟨[none], 0, 0⟩, []⟩ 2
        (fun n => if n = 0 then RandDraw.drawA
          else if n = 2 then RandDraw.drawB else RandDraw.drawNone)
        ((Simulation.runOutput ⟨0, 1, "individual", 4, ⟨[none], 0, 0⟩, []⟩ 2
          (fun n => if n = 0 then RandDraw.drawA
            else if n = 2 then RandDraw.drawB else RandDraw.drawNone) 0).2)).1 := by
  decide

theorem step_assembly_mass (c : Item) (hc : c = Item.A ∨ c = Item.B)
    (w : Worker) (hwf : WfWorker w) :
    workerMass c w.step_assembly = workerMass c w ∧
      WfWorker w.step_assembly := by
  by_cases h1 : w.is_assembling = true
  · by_cases h2 : w.assembling_time_left = 1
    · rcases hwf h1 with ⟨hl, hr⟩ | ⟨hl, hr⟩ <;>
        · rw [Worker.step_assembly_of_one w h2]
          constructor
          · rcases hc with rfl | rfl <;>
              simp [workerMass, handsCount, hl, hr] <;> omega
          · intro hx
            simp [Worker.is_assembling] at hx
    · have hpos : 0 < w.assembling_time_left := by
        simpa [Worker.is_assembling] using h1
      rw [Worker.step_assembly_of_pos w hpos h2]
      constructor
      · simp [workerMass, handsCount]
      · intro hx
        rcases hwf h1 with ⟨hl, hr⟩ | ⟨hl, hr⟩
        · exact Or.inl ⟨hl, hr⟩
        · exact Or.inr ⟨hl, hr⟩
  · have ht : w.assembling_time_left = 0 := by
      rcases Nat.eq_zero_or_pos w.assembling_time_left with h0 | h0
      · exact h0
      · exact absurd (by simpa [Worker.is_assembling] using h0) h1
    rw [Worker.step_assembly_of_zero w ht]
    exact ⟨rfl, hwf⟩

theorem start_assembly_mass (c : Item) (w : Worker) (hwf : WfWorker w) :
    workerMass c w.start_assembly = workerMass c w ∧
      WfWorker w.start_assembly := by
  unfold Worker.start_assembly
  by_cases hca : w.can_assemble = true
  · rw [if_pos hca]
    constructor
    · simp [workerMass, handsCount]
    · intro _
      unfold Worker.can_assemble at hca
      simp only [Bool.decide_and, Bool.decide_or, Bool.and_eq_true,
        Bool.or_eq_true, decide_eq_true_eq] at hca
      rcases hca.1 with ⟨hl, hr⟩ | ⟨hl, hr⟩
      · exact Or.inl ⟨hl, hr⟩
      · exact Or.inr ⟨hl, hr⟩
  · rw [if_neg hca]
    exact ⟨rfl, hwf⟩

theorem pickup_mass (c c0 : Item) (p : Worker) (hnf : p.is_full = false) :
    ∃ p', p.pickup c0 = some p' ∧
      workerMass c p' = workerMass c p + (if c0 = c then 1 else 0) ∧
      (WfWorker p → WfWorker p') := by
  have hor : p.hand_left = none ∨ p.hand_right = none := by
    unfold Worker.is_full at hnf
    simp only [Bool.decide_and, Bool.and_eq_true, decide_eq_true_eq,
      Bool.and_eq_false_iff] at hnf
    rcases hnf with h | h
    · exact Or.inl (by simpa [decide_eq_false_iff_not] using h)
    · exact Or.inr (by simpa [decide_eq_false_iff_not] using h)
  have hnass : WfWorker p → p.is_assembling = false := by
    intro hwf
    cases hass : p.is_assembling
    · rfl
    · rcases hwf hass with ⟨hl, hr⟩ | ⟨hl, hr⟩ <;>
        rcases hor with h | h <;> simp_all
  unfold Worker.pickup
  by_cases h1 : p.hand_left = none
  · rw [if_pos h1]
    refine ⟨_, rfl, ?_, ?_⟩
    · rcases eq_or_ne c0 c with rfl | hne <;>
        simp [workerMass, handsCount, h1, *] <;> omega
    · intro hwf hass
      have := hnass hwf
      simp [Worker.is_assembling] at hass this
      omega
  · rw [if_neg h1]
    have h2 : p.hand_right = none := by tauto
    rw [if_pos h2]
    refine ⟨_, rfl, ?_, ?_⟩
    · rcases eq_or_ne c0 c with rfl | hne <;>
        simp [workerMass, handsCount, h2, *] <;> omega
    · intro hwf hass
      have := hnass hwf
      simp [Worker.is_assembling] at hass this
      omega

theorem sum_map_set (f : Worker → Nat) :
    ∀ (ws : List Worker) (i : Nat) (w w' : Worker), ws.get? i = some w →
      ((ws.set i w').map f).sum + f w = (ws.map f).sum + f w' := by
  intro ws
  induction ws with
  | nil => intro i w w' h; simp at h
  | cons x t ih =>
    intro i w w' h
    cases i with
    | zero =>
      injection h with h
      subst h
      simp only [List.set, List.map_cons, List.sum_cons]
      omega
    | succ n =>
      have := ih n w w' (by simpa using h)
      simp only [List.set, List.map_cons, List.sum_cons]
      omega

theorem wfWorkers_set (ws : List Worker) (i : Nat) (w' : Worker)
    (hwf : WfWorkers ws) (hw' : WfWorker w') : WfWorkers (ws.set i w') := by
  intro x hx
  rcases List.mem_or_eq_of_mem_set hx with h | h
  · exact hwf x h
  · exact h ▸ hw'

theorem sum_map_pointwise (f : Worker → Nat) (g : Worker → Worker) :
    ∀ ws : List Worker, (∀ w ∈ ws, f (g w) = f w) →
      ((ws.map g).map f).sum = (ws.map f).sum := by
  intro ws
  induction ws with
  | nil => intro _; rfl
  | cons x t ih =>
    intro h
    simp only [List.map_cons, List.sum_cons]
    rw [h x (List.mem_cons_self x t), ih fun w hw => h w (List.mem_cons_of_mem x hw)]

theorem indiv_act_pres (c : Item) (hc : c = Item.A ∨ c = Item.B)
    (w p : Worker) (belt : ConveyorBelt) (hwf : WfWorker w) :
    (IndividualStrategy.actOnDriverBelt w p belt).1.2 = belt ∧
      workerMass c (IndividualStrategy.actOnDriverBelt w p belt).1.1 =
        workerMass c w ∧
      WfWorker (IndividualStrategy.actOnDriverBelt w p belt).1.1 := by
  unfold IndividualStrategy.actOnDriverBelt
  split_ifs with h1 h2 h3 h4 h5
  · exact ⟨rfl, rfl, hwf⟩
  · obtain ⟨hm, hwf'⟩ := step_assembly_mass c hc w hwf
    exact ⟨rfl, hm, hwf'⟩
  · obtain ⟨hm, hwf'⟩ := start_assembly_mass c w hwf
    exact ⟨rfl, hm, hwf'⟩
  · exact ⟨rfl, rfl, hwf⟩
  · exact ⟨rfl, rfl, hwf⟩
  · exact ⟨rfl, rfl, hwf⟩

theorem give_selected_sound (w p : Worker) (s : Int) (c0 : Item)
    (hmem : (s, TeamAction.give_component c0) ∈
      (if w.is_assembling = true then [((90 : Int), TeamAction.stepAssembly)] else [])
        ++ (if w.can_assemble = true then [((80 : Int), TeamAction.startAssembly)] else [])
        ++ TeamStrategy.giveCandidate w p) :
    w.hand_left = some c0 ∧ w.hand_right = some c0 ∧
      p.is_full = false ∧ p.needs_component c0 = true := by
  rcases List.mem_append.mp hmem with h | h
  · rcases List.mem_append.mp h with h | h
    · split_ifs at h with h1
      · rcases List.mem_singleton.mp h with h
        exact absurd h (by simp)
      · simp at h
    · split_ifs at h with h1
      · rcases List.mem_singleton.mp h with h
        exact absurd h (by simp)
      · simp at h
  · unfold TeamStrategy.giveCandidate at h
    split_ifs at h with h1
    · obtain ⟨hnf, hlne, hlr⟩ := h1
      cases hr : w.hand_right with
      | none => rw [hr] at h; simp at h
      | some c1 =>
        rw [hr] at h
        by_cases h2 : p.needs_component c1 = true
        · simp only [h2, if_pos] at h
          rcases List.mem_singleton.mp h with h
          injection h with h1' h2'
          injection h2' with h3
          subst h3
          exact ⟨by rw [hlr]; exact hr, rfl, by simpa using hnf, h2⟩
        · simp only [Bool.not_eq_true] at h2
          simp [h2] at h
    · simp at h

theorem team_act_pres (c : Item) (hc : c = Item.A ∨ c = Item.B)
    (w p : Worker) (belt : ConveyorBelt) (hwfw : WfWorker w)
    (hwfp : WfWorker p) :
    (TeamStrategy.actOnDriverBelt w p belt).1.2.2 = belt ∧
      workerMass c (TeamStrategy.actOnDriverBelt w p belt).1.1 +
          workerMass c (TeamStrategy.actOnDriverBelt w p belt).1.2.1 =
        workerMass c w + workerMass c p ∧
      WfWorker (TeamStrategy.actOnDriverBelt w p belt).1.1 ∧
      WfWorker (TeamStrategy.actOnDriverBelt w p belt).1.2.1 := by
  unfold TeamStrategy.actOnDriverBelt
  by_cases h1 : w.is_holding_product = true
  · rw [if_pos h1]
    exact ⟨rfl, rfl, hwfw, hwfp⟩
  · rw [if_neg h1]
    dsimp only
    by_cases h2 : (!w.is_full) = true
    · rw [if_pos h2]
      exact ⟨rfl, rfl, hwfw, hwfp⟩
    · rw [if_neg h2]
      cases hsel : TeamStrategy.selectBest
          ((if w.is_assembling = true then [((90 : Int), TeamAction.stepAssembly)] else [])
            ++ (if w.can_assemble = true then [((80 : Int), TeamAction.startAssembly)] else [])
            ++ TeamStrategy.giveCandidate w p) with
      | none =>
        exact ⟨rfl, rfl, hwfw, hwfp⟩
      | some sa =>
        obtain ⟨s, a⟩ := sa
        have hmem : (s, a) ∈
            (if w.is_assembling = true then [((90 : Int), TeamAction.stepAssembly)] else [])
              ++ (if w.can_assemble = true then [((80 : Int), TeamAction.startAssembly)] else [])
              ++ TeamStrategy.giveCandidate w p :=
          (selectFirstMax_spec _ _ hsel).1
        cases a with
        | stepAssembly =>
          obtain ⟨hm, hwf'⟩ := step_assembly_mass c hc w hwfw
          exact ⟨rfl, by dsimp only; omega, hwf', hwfp⟩
        | startAssembly =>
          obtain ⟨hm, hwf'⟩ := start_assembly_mass c w hwfw
          exact ⟨rfl, by dsimp only; omega, hwf', hwfp⟩
        | give_component c0 =>
          obtain ⟨hl, hr, hnf, hneed⟩ := give_selected_sound w p s c0 hmem
          obtain ⟨p', hp', hpm, hpwf⟩ := pickup_mass c c0 p hnf
          dsimp only
          rw [hp']
          refine ⟨rfl, ?_, ?_, hpwf hwfp⟩
          · have hwm : workerMass c { w with hand_right := none } +
                (if c0 = c then 1 else 0) = workerMass c w := by
              rcases eq_or_ne c0 c with rfl | hne <;>
                simp [workerMass, handsCount, hl, hr, *] <;> omega
            dsimp only
            omega
          · intro hass
            have hass' : w.is_assembling = true := by
              simpa [Worker.is_assembling] using hass
            rcases hwfw hass' with ⟨hll, hrr⟩ | ⟨hll, hrr⟩ <;>
              · rw [hl] at hll
                rw [hr] at hrr
                injection hll with hll
                injection hrr with hrr
                subst hll
                exact absurd hrr (by simp)
        | place_product bi si =>
          exact ⟨rfl, rfl, hwfw, hwfp⟩
        | pickupAction c0 bi si =>
          exact ⟨rfl, rfl, hwfw, hwfp⟩

theorem get?_set_ne {α : Type} :
    ∀ (l : List α) (i j : Nat) (a : α), i ≠ j →
      (l.set i a).get? j = l.get? j := by
  intro l
  induction l with
  | nil => intro i j a _; simp
  | cons x t ih =>
    intro i j a hne
    cases i with
    | zero =>
      cases j with
      | zero => exact absurd rfl hne
      | succ m => simp [List.set]
    | succ n =>
      cases j with
      | zero => simp [List.set]
      | succ m =>
        simp only [List.set, List.get?_cons_succ]
        exact ih n m a (by omega)

theorem indivLoopBody_pres (c : Item) (hc : c = Item.A ∨ c = Item.B)
    (acc : List Worker × ConveyorBelt × Option PyErr) (i : Nat)
    (hwf : WfWorkers acc.1) :
    ((Simulation.indivLoopBody acc i).1.map (workerMass c)).sum
        + beltCount c (Simulation.indivLoopBody acc i).2.1
        + missedOf c (Simulation.indivLoopBody acc i).2.1 =
      (acc.1.map (workerMass c)).sum + beltCount c acc.2.1 +
        missedOf c acc.2.1 ∧
      WfWorkers (Simulation.indivLoopBody acc i).1 := by
  obtain ⟨ws, belt, e⟩ := acc
  cases e with
  | some err => exact ⟨rfl, hwf⟩
  | none =>
    unfold Simulation.indivLoopBody
    dsimp only
    cases hgi : ws.get? i with
    | none => exact ⟨rfl, hwf⟩
    | some w =>
      cases hgp : ws.get? (if i % 2 = 0 then i + 1 else i - 1) with
      | none => exact ⟨rfl, hwf⟩
      | some partner =>
        dsimp only
        have hwfw : WfWorker w := hwf w (List.get?_mem hgi)
        obtain ⟨hbelt, hmass, hwf'⟩ := indiv_act_pres c hc w partner belt hwfw
        rcases hact : IndividualStrategy.actOnDriverBelt w partner belt with
          ⟨⟨w', belt'⟩, e'⟩
        rw [hact] at hbelt hmass hwf'
        dsimp only at hbelt hmass hwf'
        subst hbelt
        have hsum := sum_map_set (workerMass c) ws i w w' hgi
        constructor
        · dsimp only
          omega
        · dsimp only
          exact wfWorkers_set ws i w' hwf hwf'

theorem teamLoopBody_pres (c : Item) (hc : c = Item.A ∨ c = Item.B)
    (acc : List Worker × ConveyorBelt × Option PyErr) (i : Nat)
    (hwf : WfWorkers acc.1) :
    ((Simulation.teamLoopBody acc i).1.map (workerMass c)).sum
        + beltCount c (Simulation.teamLoopBody acc i).2.1
        + missedOf c (Simulation.teamLoopBody acc i).2.1 =
      (acc.1.map (workerMass c)).sum + beltCount c acc.2.1 +
        missedOf c acc.2.1 ∧
      WfWorkers (Simulation.teamLoopBody acc i).1 := by
  obtain ⟨ws, belt, e⟩ := acc
  cases e with
  | some err => exact ⟨rfl, hwf⟩
  | none =>
    unfold Simulation.teamLoopBody
    dsimp only
    cases hg1 : ws.get? (2 * i) with
    | none => exact ⟨rfl, hwf⟩
    | some w1 =>
      cases hg2 : ws.get? (2 * i + 1) with
      | none => exact ⟨rfl, hwf⟩
      | some w2 =>
        dsimp only
        have hwf1 : WfWorker w1 := hwf w1 (List.get?_mem hg1)
        have hwf2 : WfWorker w2 := hwf w2 (List.get?_mem hg2)
        obtain ⟨hbelt1, hmass1, hwf1', hwf2'⟩ :=
          team_act_pres c hc w1 w2 belt hwf1 hwf2
        rcases hact1 : TeamStrategy.actOnDriverBelt w1 w2 belt with
          ⟨⟨w1', w2', belt1⟩, e1⟩
        rw [hact1] at hbelt1 hmass1 hwf1' hwf2'
        dsimp only at hbelt1 hmass1 hwf1' hwf2'
        subst hbelt1
        have hg2' : (ws.set (2 * i) w1').get? (2 * i + 1) = some w2 := by
          rw [get?_set_ne ws (2 * i) (2 * i + 1) w1' (by omega)]
          exact hg2
        have hsum1 := sum_map_set (workerMass c) ws (2 * i) w1 w1' hg1
        have hsum2 := sum_map_set (workerMass c) (ws.set (2 * i) w1')
          (2 * i + 1) w2 w2' hg2'
        have hwfset1 : WfWorkers (ws.set (2 * i) w1') :=
          wfWorkers_set ws (2 * i) w1' hwf hwf1'
        try rw [hact1]
        cases e1 with
        | some err1 =>
          constructor
          · dsimp only
            omega
          · dsimp only
            exact wfWorkers_set _ (2 * i + 1) w2' hwfset1 hwf2'
        | none =>
          dsimp only
          obtain ⟨hbelt2, hmass2, hwf2'', hwf1''⟩ :=
            team_act_pres c hc w2' w1' belt1 hwf2' hwf1'
          rcases hact2 : TeamStrategy.actOnDriverBelt w2' w1' belt1 with
            ⟨⟨w2'', w1'', belt2⟩, e2⟩
          rw [hact2] at hbelt2 hmass2 hwf2'' hwf1''
          dsimp only at hbelt2 hmass2 hwf2'' hwf1''
          subst hbelt2
          have hg2'' : (ws.set (2 * i) w1'').get? (2 * i + 1) = some w2 := by
            rw [get?_set_ne ws (2 * i) (2 * i + 1) w1'' (by omega)]
            exact hg2
          have hsum1' := sum_map_set (workerMass c) ws (2 * i) w1 w1'' hg1
          have hsum2' := sum_map_set (workerMass c) (ws.set (2 * i) w1'')
            (2 * i + 1) w2 w2'' hg2''
          have hwfset1' : WfWorkers (ws.set (2 * i) w1'') :=
            wfWorkers_set ws (2 * i) w1'' hwf hwf1''
          try rw [hact2]
          constructor
          · dsimp only
            omega
          · dsimp only
            exact wfWorkers_set _ (2 * i + 1) w2'' hwfset1' hwf2''

theorem loop_fold_pres (body : List Worker × ConveyorBelt × Option PyErr →
      Nat → List Worker × ConveyorBelt × Option PyErr) (c : Item)
    (hbody : ∀ acc i, WfWorkers acc.1 →
      ((body acc i).1.map (workerMass c)).sum + beltCount c (body acc i).2.1 +
          missedOf c (body acc i).2.1 =
        (acc.1.map (workerMass c)).sum + beltCount c acc.2.1 +
          missedOf c acc.2.1 ∧
        WfWorkers (body acc i).1) :
    ∀ (idxs : List Nat) (acc), WfWorkers acc.1 →
      ((idxs.foldl body acc).1.map (workerMass c)).sum +
          beltCount c (idxs.foldl body acc).2.1 +
          missedOf c (idxs.foldl body acc).2.1 =
        (acc.1.map (workerMass c)).sum + beltCount c acc.2.1 +
          missedOf c acc.2.1 ∧
        WfWorkers (idxs.foldl body acc).1 := by
  intro idxs
  induction idxs with
  | nil => intro acc hwf; exact ⟨rfl, hwf⟩
  | cons i t ih =>
    intro acc hwf
    obtain ⟨hm, hwf'⟩ := hbody acc i hwf
    obtain ⟨hm', hwf''⟩ := ih (body acc i) hwf'
    simp only [List.foldl_cons]
    exact ⟨by omega, hwf''⟩

theorem indiv_act_belt (w p : Worker) (belt : ConveyorBelt) :
    (IndividualStrategy.actOnDriverBelt w p belt).1.2 = belt := by
  unfold IndividualStrategy.actOnDriverBelt
  split_ifs <;> rfl

theorem team_act_belt (w p : Worker) (belt : ConveyorBelt) :
    (TeamStrategy.actOnDriverBelt w p belt).1.2.2 = belt := by
  unfold TeamStrategy.actOnDriverBelt
  by_cases h1 : w.is_holding_product = true
  · rw [if_pos h1]
  · rw [if_neg h1]
    dsimp only
    by_cases h2 : (!w.is_full) = true
    · rw [if_pos h2]
    · rw [if_neg h2]
      cases hsel : TeamStrategy.selectBest
          ((if w.is_assembling = true then [((90 : Int), TeamAction.stepAssembly)] else [])
            ++ (if w.can_assemble = true then [((80 : Int), TeamAction.startAssembly)] else [])
            ++ TeamStrategy.giveCandidate w p) with
      | none => rfl
      | some sa =>
        obtain ⟨s, a⟩ := sa
        cases a with
        | stepAssembly => rfl
        | startAssembly => rfl
        | give_component c0 =>
          dsimp only
          cases hpk : p.pickup c0 <;> rfl
        | place_product bi si => rfl
        | pickupAction c0 bi si => rfl

theorem indivLoopBody_belt (acc : List Worker × ConveyorBelt × Option PyErr)
    (i : Nat) : (Simulation.indivLoopBody acc i).2.1 = acc.2.1 := by
  obtain ⟨ws, belt, e⟩ := acc
  cases e with
  | some err => rfl
  | none =>
    unfold Simulation.indivLoopBody
    dsimp only
    cases hgi : ws.get? i with
    | none => rfl
    | some w =>
      cases hgp : ws.get? (if i % 2 = 0 then i + 1 else i - 1) with
      | none => rfl
      | some partner =>
        dsimp only
        have hb := indiv_act_belt w partner belt
        rcases hact : IndividualStrategy.actOnDriverBelt w partner belt with
          ⟨⟨w', belt'⟩, e'⟩
        rw [hact] at hb
        dsimp only at hb
        exact hb

theorem teamLoopBody_belt (acc : List Worker × ConveyorBelt × Option PyErr)
    (i : Nat) : (Simulation.teamLoopBody acc i).2.1 = acc.2.1 := by
  obtain ⟨ws, belt, e⟩ := acc
  cases e with
  | some err => rfl
  | none =>
    unfold Simulation.teamLoopBody
    dsimp only
    cases hg1 : ws.get? (2 * i) with
    | none => rfl
    | some w1 =>
      cases hg2 : ws.get? (2 * i + 1) with
      | none => rfl
      | some w2 =>
        dsimp only
        have hb1 := team_act_belt w1 w2 belt
        rcases hact1 : TeamStrategy.actOnDriverBelt w1 w2 belt with
          ⟨⟨w1', w2', belt1⟩, e1⟩
        rw [hact1] at hb1
        dsimp only at hb1
        subst hb1
        cases e1 with
        | some err1 => rfl
        | none =>
          dsimp only
          have hb2 := team_act_belt w2' w1' belt1
          rcases hact2 : TeamStrategy.actOnDriverBelt w2' w1' belt1 with
            ⟨⟨w2'', w1'', belt2⟩, e2⟩
          rw [hact2] at hb2
          dsimp only at hb2
          exact hb2

theorem loop_fold_belt (body : List Worker × ConveyorBelt × Option PyErr →
      Nat → List Worker × ConveyorBelt × Option PyErr)
    (hbody : ∀ acc i, (body acc i).2.1 = acc.2.1) :
    ∀ (idxs : List Nat) (acc), (idxs.foldl body acc).2.1 = acc.2.1 := by
  intro idxs
  induction idxs with
  | nil => intro acc; rfl
  | cons i t ih =>
    intro acc
    simp only [List.foldl_cons]
    rw [ih (body acc i), hbody acc i]

theorem step_with_random_item_ne_nil (b : ConveyorBelt) (d : RandDraw) :
    (b.step_with_random_item d).1.slots ≠ [] := by
  unfold ConveyorBelt.step_with_random_item ConveyorBelt.step
  dsimp only
  simp

/-- C8: per-tick conservation of components.  Accounting a component `c`
(`A` or `B`) as on-belt plus missed plus in-hand plus consumed-into-products,
one `run_step` changes the account by exactly the tick's refill draw — no
component vanishes or is overwritten, including on ticks the strategy loop
aborts — and both invariants are preserved: the belt keeps at least one slot
and an assembling worker holds one `A` and one `B`, so this holds along any
run.  The belt hypothesis holds for every positive-length configuration and
excludes the zero-length belt, whose tick raises `IndexError` in Python
(`slots[-1]` on an empty list) rather than returning. -/
theorem claim_C8_conservation (sim : Simulation) (d : RandDraw) (c : Item)
    (hc : c = Item.A ∨ c = Item.B) (hne : sim.belt.slots ≠ [])
    (hwf : WfWorkers sim.workers) :
    totalMass c (Simulation.run_step sim d).1 =
      totalMass c sim + (if d.toSlot = some c then 1 else 0) ∧
      (Simulation.run_step sim d).1.belt.slots ≠ [] ∧
      WfWorkers (Simulation.run_step sim d).1.workers := by
  have hpoint : ∀ w ∈ sim.workers,
      workerMass c (if w.is_assembling = true then w.step_assembly else w) =
        workerMass c w := by
    intro w hw
    by_cases h : w.is_assembling = true
    · simpa [h] using (step_assembly_mass c hc w (hwf w hw)).1
    · simp [h]
  have hsum1 : ((sim.workers.map fun w =>
        if w.is_assembling = true then w.step_assembly else w).map
          (workerMass c)).sum = (sim.workers.map (workerMass c)).sum :=
    sum_map_pointwise (workerMass c) _ sim.workers hpoint
  have hwf1 : WfWorkers (sim.workers.map fun w =>
      if w.is_assembling = true then w.step_assembly else w) := by
    intro x hx
    rcases List.mem_map.mp hx with ⟨w, hw, rfl⟩
    by_cases h : w.is_assembling = true
    · simpa [h] using (step_assembly_mass c hc w (hwf w hw)).2
    · simpa [h] using hwf w hw
  have hbelt := belt_phase_mass c hc sim.belt d hne
  unfold Simulation.run_step
  by_cases hs1 : sim.strategy_name = "individual"
  · rw [if_pos hs1]
    have hfold := loop_fold_pres Simulation.indivLoopBody c
      (fun acc i hw => indivLoopBody_pres c hc acc i hw)
      (List.range (sim.num_worker_pairs * 2))
      ((sim.workers.map fun w =>
        if w.is_assembling = true then w.step_assembly else w),
        (sim.belt.step_with_random_item d).1, none) hwf1
    rcases hloop : Simulation.stratLoopIndividual (sim.num_worker_pairs * 2)
        (sim.workers.map fun w =>
          if w.is_assembling = true then w.step_assembly else w)
        (sim.belt.step_with_random_item d).1 with ⟨ws2, belt2, e2⟩
    rw [hloop]
    dsimp only
    have hloop2 := hloop
    unfold Simulation.stratLoopIndividual at hloop2
    rw [hloop2] at hfold
    dsimp only at hfold
    obtain ⟨hm, hwf2⟩ := hfold
    have hbp := loop_fold_belt Simulation.indivLoopBody indivLoopBody_belt
      (List.range (sim.num_worker_pairs * 2))
      ((sim.workers.map fun w =>
        if w.is_assembling = true then w.step_assembly else w),
        (sim.belt.step_with_random_item d).1, none)
    rw [hloop2] at hbp
    dsimp only at hbp
    refine ⟨?_, ?_, ?_⟩
    · unfold totalMass
      dsimp only
      omega
    · dsimp only
      rw [hbp]
      exact step_with_random_item_ne_nil sim.belt d
    · exact hwf2
  · rw [if_neg hs1]
    by_cases hs2 : sim.strategy_name = "team"
    · rw [if_pos hs2]
      have hfold := loop_fold_pres Simulation.teamLoopBody c
        (fun acc i hw => teamLoopBody_pres c hc acc i hw)
        (List.range sim.num_worker_pairs)
        ((sim.workers.map fun w =>
          if w.is_assembling = true then w.step_assembly else w),
          (sim.belt.step_with_random_item d).1, none) hwf1
      rcases hloop : Simulation.stratLoopTeam sim.num_worker_pairs
          (sim.workers.map fun w =>
            if w.is_assembling = true then w.step_assembly else w)
          (sim.belt.step_with_random_item d).1 with ⟨ws2, belt2, e2⟩
      rw [hloop]
      dsimp only
      have hloop2 := hloop
      unfold Simulation.stratLoopTeam at hloop2
      rw [hloop2] at hfold
      dsimp only at hfold
      obtain ⟨hm, hwf2⟩ := hfold
      have hbp := loop_fold_belt Simulation.teamLoopBody teamLoopBody_belt
        (List.range sim.num_worker_pairs)
        ((sim.workers.map fun w =>
          if w.is_assembling = true then w.step_assembly else w),
          (sim.belt.step_with_random_item d).1, none)
      rw [hloop2] at hbp
      dsimp only at hbp
      refine ⟨?_, ?_, ?_⟩
      · unfold totalMass
        dsimp only
        omega
      · dsimp only
        rw [hbp]
        exact step_with_random_item_ne_nil sim.belt d
      · exact hwf2
    · rw [if_neg hs2]
      refine ⟨?_, ?_, ?_⟩
      · unfold totalMass
        dsimp only
        omega
      · dsimp only
        exact step_with_random_item_ne_nil sim.belt d
      · exact hwf1

/-- Witness for C8 at a one-pair Team simulation mid-assembly with an `A`
drawn onto the belt. -/
theorem claim_C8_conservation_witness :
    totalMass Item.A
        (Simulation.run_step
          ⟨1, 2, "team", 4, ⟨[none, none], 0, 0⟩,
            [⟨0, some Item.A, some Item.B, 2, 0, 4⟩,
              ⟨1, some Item.B, some Item.A, 3, 0, 4⟩]⟩ RandDraw.drawA).1 =
      totalMass Item.A
          ⟨1, 2, "team", 4, ⟨[none, none], 0, 0⟩,
            [⟨0, some Item.A, some Item.B, 2, 0, 4⟩,
              ⟨1, some Item.B, some Item.A, 3, 0, 4⟩]⟩ +
        (if RandDraw.drawA.toSlot = some Item.A then 1 else 0) ∧
      (Simulation.run_step
          ⟨1, 2, "team", 4, ⟨[none, none], 0, 0⟩,
            [⟨0, some Item.A, some Item.B, 2, 0, 4⟩,
              ⟨1, some Item.B, some Item.A, 3, 0, 4⟩]⟩ RandDraw.drawA).1.belt.slots ≠ [] ∧
      WfWorkers
        (Simulation.run_step
          ⟨1, 2, "team", 4, ⟨[none, none], 0, 0⟩,
            [⟨0, some Item.A, some Item.B, 2, 0, 4⟩,
              ⟨1, some Item.B, some Item.A, 3, 0, 4⟩]⟩ RandDraw.drawA).1.workers := by
  exact claim_C8_conservation _ RandDraw.drawA Item.A (Or.inl rfl) (by decide)
    (by decide)

theorem pickBetter_fold_some {α : Type} :
    ∀ (l : List (Int × α)) (b : Int × α),
      l.foldl pickBetter (some b) ≠ none := by
  intro l
  induction l with
  | nil => intro b h; exact Option.noConfusion h
  | cons hd t ih =>
    intro b
    simp only [List.foldl_cons]
    by_cases hlt : b.1 < hd.1
    · rw [show pickBetter (some b) hd = some hd by simp [pickBetter, hlt]]
      exact ih hd
    · rw [show pickBetter (some b) hd = some b by simp [pickBetter, hlt]]
      exact ih b

theorem selectFirstMax_none {α : Type} (l : List (Int × α))
    (h : selectFirstMax l = none) : l = [] := by
  cases l with
  | nil => rfl
  | cons hd t =>
    unfold selectFirstMax at h
    simp only [List.foldl_cons] at h
    unfold pickBetter at h
    exact absurd h (pickBetter_fold_some t hd)

theorem applyChoice_frame (ws : List Worker) (belts : List ConveyorBelt)
    (i : Nat) (a : TeamAction) (j : Nat) (hj1 : j ≠ i)
    (hj2 : j ≠ (if i % 2 = 0 then i + 1 else i - 1)) :
    (HiveMindStrategy.applyChoice ws belts i a).1.get? j = ws.get? j := by
  unfold HiveMindStrategy.applyChoice
  cases hg : ws.get? i with
  | none => rfl
  | some w =>
    cases a with
    | place_product bi si =>
      exact get?_set_ne ws i j _ (by omega)
    | stepAssembly =>
      exact get?_set_ne ws i j _ (by omega)
    | startAssembly =>
      exact get?_set_ne ws i j _ (by omega)
    | give_component c =>
      dsimp only
      cases hgp : ws.get? (if i % 2 = 0 then i + 1 else i - 1) with
      | none => rfl
      | some p =>
        dsimp only
        cases hpk : p.pickup c with
        | none => rfl
        | some p' =>
          dsimp only
          rw [get?_set_ne _ _ j _ (fun hx => hj2 hx.symm)]
          exact get?_set_ne ws i j _ (by omega)
    | pickupAction c bi si =>
      dsimp only
      cases hpk : w.pickup c with
      | none => rfl
      | some w' =>
        exact get?_set_ne ws i j _ (by omega)

/-- C2 counterexample: the strategy selector rejects the name `hivemind`
with a `ValueError` — only `individual` and `team` are accepted. -/
theorem claim_C2_counterexample :
    Simulation.init 1 10 "hivemind" 4 = Except.error "Unknown strategy" := by
  rfl

/-- C2 amended: the driver's strategy selector accepts only `individual` and
`team` and raises for `hivemind`; the `HiveMindStrategy` itself (absent from
the sources, modelled from the spec and exercised by the tests through
`hive_act`) enumerates every legal action of every non-assembling worker on
the Team priority scale and commits only the single globally highest-scoring
action per tick — every worker other than the chosen actor (and, for a
hand-off, its partner) is left untouched. -/
theorem claim_C2_hivemind_single_action (pairs len assembly_time : Nat)
    (ws : List Worker) (belts : List ConveyorBelt) :
    (Simulation.init pairs len "hivemind" assembly_time).toOption.isSome =
        false ∧
      ((HiveMindStrategy.candidates ws belts = [] ∧
          HiveMindStrategy.hive_act ws belts = (ws, belts)) ∨
        ∃ s i a, (s, i, a) ∈ HiveMindStrategy.candidates ws belts ∧
          (∀ x ∈ HiveMindStrategy.candidates ws belts, x.1 ≤ s) ∧
          HiveMindStrategy.hive_act ws belts =
            HiveMindStrategy.applyChoice ws belts i a ∧
          ∀ j, j ≠ i → j ≠ (if i % 2 = 0 then i + 1 else i - 1) →
            (HiveMindStrategy.hive_act ws belts).1.get? j = ws.get? j) := by
  constructor
  · unfold Simulation.init
    split_ifs with h1 h2
    · simp [Except.toOption]
    · exact absurd h2 (by decide)
    · simp [Except.toOption]
  · cases hsel : selectFirstMax (HiveMindStrategy.candidates ws belts) with
    | none =>
      left
      have hnil := selectFirstMax_none _ hsel
      refine ⟨hnil, ?_⟩
      unfold HiveMindStrategy.hive_act
      rw [hsel]
    | some sia =>
      right
      obtain ⟨s, i, a⟩ := sia
      obtain ⟨hmem, hle⟩ := selectFirstMax_spec _ _ hsel
      have hact : HiveMindStrategy.hive_act ws belts =
          HiveMindStrategy.applyChoice ws belts i a := by
        unfold HiveMindStrategy.hive_act
        rw [hsel]
      refine ⟨s, i, a, hmem, hle, hact, ?_⟩
      intro j hj1 hj2
      rw [hact]
      exact applyChoice_frame ws belts i a j hj1 hj2

/-- The spec-modelled HiveMind reproduces the repository's own
`test_hive_mind_assemble_priority`: with worker 1 ready to assemble and a
component available for pickup, the single committed global action is
worker 1 starting assembly, and every other worker is untouched. -/
theorem hive_act_matches_assemble_priority_test :
    (HiveMindStrategy.hive_act
        [Worker.init 0 4, ⟨1, some Item.A, some Item.B, 0, 0, 4⟩,
          Worker.init 2 4, Worker.init 3 4]
        [⟨(some Item.A) :: List.replicate 9 none, 0, 0⟩]).1 =
      [Worker.init 0 4, ⟨1, some Item.A, some Item.B, 4, 0, 4⟩,
        Worker.init 2 4, Worker.init 3 4] := by
  decide

end Factory
